import Mathlib

/-!
# Verification of the go2ts type mapper

A shallow embedding of `internal/parser/parser.go` (the recursive
Go-type → TypeScript-type translator) and of `pkg/go2ts.Convert`.

Strings are modelled through their character lists (`String.data`); Go's
byte-indexed operations on this code only ever slice at ASCII delimiter
positions, where byte indices and character indices coincide.  Go maps are
modelled as association lists (first binding wins; Go maps cannot hold
duplicate keys).  The mutable `visited map[string]bool` of the Go code is
modelled by explicit state passing: every translation function receives the
visited set and returns the visited set as it stands when the function
returns (the Go `defer delete(visited, goType)` becomes an explicit
`Finset.erase` on the returned set).  Recursion is bounded by an explicit
fuel parameter; `none` means "fuel exhausted".  Termination of the Go code
corresponds to the theorem that sufficient fuel always exists.
-/

/-- The white-space characters of Go's `unicode.IsSpace` (the set used by
`strings.TrimSpace` and `strings.Fields`). -/
def isGoSpace (c : Char) : Bool :=
  c = ' ' || c = '\t' || c = '\n' || c = '\x0b' || c = '\x0c' || c = '\r' ||
  c = '\u0085' || c = '\u00a0' || c = '\u1680' ||
  ('\u2000' ≤ c && c ≤ '\u200a') ||
  c = '\u2028' || c = '\u2029' || c = '\u202f' || c = '\u205f' || c = '\u3000'

/-- Trim go-space characters from the front of a character list. -/
def trimLeftCh (l : List Char) : List Char := l.dropWhile isGoSpace

/-- Trim go-space characters from both ends (Go `strings.TrimSpace`). -/
def trimCh (l : List Char) : List Char :=
  ((l.dropWhile isGoSpace).reverse.dropWhile isGoSpace).reverse

/-- Go `strings.TrimSpace` on `String`. -/
def trimSpace (s : String) : String := ⟨trimCh s.data⟩

/-- `listStartsWith l p` : does `l` start with `p` (Go `strings.HasPrefix`)? -/
def listStartsWith : List Char → List Char → Bool
  | _, [] => true
  | [], _ :: _ => false
  | a :: l, b :: p => a = b && listStartsWith l p

/-- `listEndsWith l p` : does `l` end with `p` (Go `strings.HasSuffix`)? -/
def listEndsWith (l p : List Char) : Bool := listStartsWith l.reverse p.reverse

/-- Go `strings.HasPrefix s p`. -/
def strStartsWith (s p : String) : Bool := listStartsWith s.data p.data

/-- Go `strings.HasSuffix s p`. -/
def strEndsWith (s p : String) : Bool := listEndsWith s.data p.data

/-- Drop the first `n` characters of a string (Go slicing `s[n:]` at an
ASCII boundary). -/
def strDrop (s : String) (n : Nat) : String := ⟨s.data.drop n⟩

/-- Does the character list contain `c`? -/
def containsChar (c : Char) : List Char → Bool
  | [] => false
  | a :: l => a = c || containsChar c l

/-- Go `strings.Contains s sub` for a one-character `sub`. -/
def strContainsChar (s : String) (c : Char) : Bool := containsChar c s.data

/-- Index of the first occurrence of `c` (Go `strings.Index` for a
one-character pattern), `none` when absent. -/
def firstIdxOf (c : Char) : List Char → Option Nat
  | [] => none
  | a :: l => if a = c then some 0 else (firstIdxOf c l).map (· + 1)

/-- Index of the last occurrence of `c` (Go `strings.LastIndex`). -/
def lastIdxOf (c : Char) (l : List Char) : Option Nat :=
  (firstIdxOf c l.reverse).map (fun i => l.length - 1 - i)

/-- Split at the first occurrence of `c`: `some (before, after)`, the
separator removed; `none` when `c` does not occur.  This is Go
`strings.SplitN(s, c, 2)` (which yields one part exactly when `c` is
absent). -/
def splitOnFirstChar (c : Char) : List Char → Option (List Char × List Char)
  | [] => none
  | a :: l =>
    if a = c then some ([], l)
    else (splitOnFirstChar c l).map (fun p => (a :: p.1, p.2))

/-- Go `strings.Split(s, c)` for a one-character separator: all parts, empty
parts kept, `[""]` for the empty string. -/
def splitOnChar (c : Char) : List Char → List (List Char)
  | [] => [[]]
  | a :: l =>
    if a = c then [] :: splitOnChar c l
    else
      match splitOnChar c l with
      | [] => [[a]]
      | h :: t => (a :: h) :: t

/-- Helper for `fieldsCh`: `acc` holds the characters of the current run,
in reverse. -/
def fieldsChAux : List Char → List Char → List (List Char)
  | [], acc => if acc = [] then [] else [acc.reverse]
  | a :: l, acc =>
    if isGoSpace a then
      if acc = [] then fieldsChAux l []
      else acc.reverse :: fieldsChAux l []
    else fieldsChAux l (a :: acc)

/-- Go `strings.Fields`: split around runs of white space, dropping empty
parts. -/
def fieldsCh (l : List Char) : List (List Char) := fieldsChAux l []

/-- Go `strings.Join(xs, sep)`. -/
def joinSep (sep : String) : List String → String
  | [] => ""
  | [x] => x
  | x :: y :: xs => x ++ sep ++ joinSep sep (y :: xs)

/-- Go `strings.TrimPrefix s p`. -/
def trimPrefixStr (s p : String) : String :=
  if listStartsWith s.data p.data then ⟨s.data.drop p.data.length⟩ else s

/-- Go `strings.TrimSuffix s p`. -/
def trimSuffixStr (s p : String) : String :=
  if listEndsWith s.data p.data then ⟨s.data.take (s.data.length - p.data.length)⟩ else s

/-- A character of the regexp class `[a-zA-Z0-9_]`. -/
def identChar (c : Char) : Bool :=
  ('a' ≤ c && c ≤ 'z') || ('A' ≤ c && c ≤ 'Z') || ('0' ≤ c && c ≤ '9') || c = '_'

/-- `regexp.MustCompile("[a-zA-Z0-9_]+\\[.*\\]").MatchString`: some position
holds an identifier character immediately followed by `[`, with a `]`
further right before any newline (`.` does not match a newline in Go
regexps; the match is unanchored, and one identifier character suffices
for the `+`). -/
def genericShapeMatchCh : List Char → Bool
  | [] => false
  | [_] => false
  | a :: b :: l =>
    (identChar a && (b = '[') && (l.takeWhile (· ≠ '\n')).contains ']') ||
    genericShapeMatchCh (b :: l)

/-- The generic-instantiation shape test on strings
(`genericTypePattern.MatchString` in the source). -/
def genericShapeMatch (s : String) : Bool := genericShapeMatchCh s.data

/-- `parser.FieldInfo`: information about a struct field (`Name`, `Type`,
`Tags` in the source; `Type` is rendered `typ` since `Type` is a Lean
sort former). -/
structure FieldInfo where
  name : String
  typ : String
  tags : String
deriving DecidableEq, Repr

/-- `parser.StructInfo`: information about a Go struct. -/
structure StructInfo where
  name : String
  typeParams : List String
  fields : List FieldInfo
deriving DecidableEq, Repr

/-- `map[string]string` alias table, as an association list. -/
abbrev AliasMap := List (String × String)

/-- `map[string]StructInfo`, as an association list. -/
abbrev StructMap := List (String × StructInfo)

/-- `map[string]string` generic-parameter substitution, as an association
list. -/
abbrev TypeParamMapping := List (String × String)

/-- The `visited map[string]bool` cycle guard, as a finite set of strings. -/
abbrev Visited := Finset String

/-- Go map lookup on an association list (first binding wins; a Go map
cannot hold two bindings for one key). -/
def lookupStr {α : Type} : List (String × α) → String → Option α
  | [], _ => none
  | (k, v) :: rest, key => if k = key then some v else lookupStr rest key

/-- `checkSpecialCases` of the source: literal special cases, `""` when no
case applies. -/
def checkSpecialCases (goType : String) : String :=
  if goType = "[]byte" then "Uint8Array"
  else if goType = "struct\x7b\x7d" then "any"
  else if goType = "func" then "(...args: any[]) => any"
  else if goType = "*time.Time" ∨ goType = "*url.URL" then "string"
  else ""

/-- `IsUserDefinedStruct` of the source. -/
def IsUserDefinedStruct (name : String) (structMap : StructMap) : Bool :=
  (lookupStr structMap name).isSome

/-- `IsAliasName` of the source: does the name start with an upper-case
ASCII letter?  (The Go code reads byte 0; for a multi-byte first character
that byte is ≥ 0x80, outside `'A'..'Z'`, so the character-level reading
agrees.) -/
def IsAliasName (typeName : String) : Bool :=
  match typeName.data with
  | [] => false
  | c :: _ => 'A' ≤ c && c ≤ 'Z'

/-- The numeric-family names of the `switch` in `checkBasicTypes` that map
to `number`. -/
def numberNames : List String :=
  ["int", "int8", "int16", "int32", "int64",
   "uint", "uint8", "uint16", "uint32", "uint64",
   "byte", "rune", "float32", "float64"]

/-- `checkBasicTypes` of the source: the fixed basic-type table; returns its
argument unchanged when no entry matches. -/
def checkBasicTypes (goType : String) : String :=
  if goType = "string" then "string"
  else if goType ∈ numberNames then "number"
  else if goType = "bool" then "boolean"
  else if goType = "time.Time" then "string"
  else if goType = "url.URL" then "string"
  else if goType = "interface\x7b\x7d" ∨ goType = "*interface\x7b\x7d" ∨
          goType = "interface \x7b\x7d" ∨ goType = "*interface \x7b\x7d" then "any"
  else if goType = "complex64" ∨ goType = "complex128" then "any"
  else if goType = "decimal.Decimal" ∨ goType = "primitive.ObjectID" ∨
          goType = "primitive.Decimal128" ∨ goType = "uuid.UUID" ∨
          goType = "pgtype.UUID" then "string"
  else if goType = "sql.NullString" then "string | null"
  else if goType = "sql.NullInt64" then "number | null"
  else if goType = "pq.NullTime" then "string | null"
  else if goType = "sql.NullBool" then "boolean | null"
  else if goType = "unsafe.Pointer" then "any"
  else if goType = "error" then "Error"
  else goType

/-- `checkComplexTypes` of the source: a dotted name, or a name still
holding `*`, `[` or `]` (Go `strings.ContainsAny(goType, "*[]")`), maps to
`any`; otherwise `""`. -/
def checkComplexTypes (goType : String) : String :=
  if strContainsChar goType '.' then "any"
  else if containsChar '*' goType.data || containsChar '[' goType.data ||
          containsChar ']' goType.data then "any"
  else ""

/-- The flush closure of `SplitGenericType`: trim the buffer and append it
to the collected parts when non-empty. -/
def flushPart (parts : List (List Char)) (buf : List Char) : List (List Char) :=
  if trimCh buf = [] then parts else parts ++ [trimCh buf]

/-- The scanning loop of `SplitGenericType`: split on commas at bracket
depth 0 (`[` increments, `]` decrements — the Go counter is an `int` and
may go negative), all other characters buffered. -/
def splitDepthAux : List Char → Int → List Char → List (List Char) → List (List Char)
  | [], _, buf, parts => flushPart parts buf
  | r :: rest, depth, buf, parts =>
    if r = ',' ∧ depth = 0 then splitDepthAux rest depth [] (flushPart parts buf)
    else
      splitDepthAux rest
        (if r = '[' then depth + 1 else if r = ']' then depth - 1 else depth)
        (buf ++ [r]) parts

/-- `SplitGenericType` of the source: split `Base[A, B]` into the base name
and the depth-0 comma-separated, trimmed, non-empty parameter parts; an
entirely empty parameter text yields `[""]`; no `[`, or last `]` not after
the first `[`, returns the input unchanged with no parameters. -/
def SplitGenericType (goType : String) : String × List String :=
  match firstIdxOf '[' goType.data, lastIdxOf ']' goType.data with
  | some lidx, some ridx =>
    if ridx ≤ lidx then (goType, [])
    else
      let base : String := ⟨goType.data.take lidx⟩
      let paramStr : List Char := (goType.data.drop (lidx + 1)).take (ridx - (lidx + 1))
      if paramStr = [] then (base, [""])
      else (base, (splitDepthAux paramStr 0 [] []).map (fun p => (⟨p⟩ : String)))
  | _, _ => (goType, [])

/-- The key names of the numeric-key `switch` in `parseMapType` (note:
`byte`, `rune` and the float types are not in this list). -/
def intKeyNames : List String :=
  ["int", "int8", "int16", "int32", "int64",
   "uint", "uint8", "uint16", "uint32", "uint64"]

/-- A key on which `lookupStr` succeeds is among the keys of the list. -/
theorem lookupStr_mem_keys {α : Type} :
    ∀ (l : List (String × α)) (key : String) (v : α),
      lookupStr l key = some v → key ∈ l.map Prod.fst := by
  intro l key v h
  induction l with
  | nil => simp [lookupStr] at h
  | cons kv rest ih =>
    by_cases hk : kv.1 = key
    · simp [hk]
    · refine List.mem_cons_of_mem _ (ih ?_)
      obtain ⟨k0, v0⟩ := kv
      simpa [lookupStr, hk] using h

/-- The alias-chain fixed-point loop local to `parseMapType`: follow the
alias table until a key repeats (the local `visitedKeys` guard), the key is
absent, or the key maps to itself.  `gas` bounds the number of loop
iterations; `resolveKeyChainGas_spec` below shows that with the gas used by
`resolveKeyChain` the bound is never hit, so this is exactly the Go
`for` loop. -/
def resolveKeyChainGas : Nat → AliasMap → Finset String → String → String
  | 0, _, _, cur => cur
  | gas + 1, aliasMap, visitedKeys, cur =>
    if cur ∈ visitedKeys then cur
    else
      match lookupStr aliasMap cur with
      | some base =>
        if base = cur then cur
        else resolveKeyChainGas gas aliasMap (insert cur visitedKeys) base
      | none => cur

/-- The fixed-point resolution of a map key through the alias table, started
with an empty local visited-keys set (the `for` loop in `parseMapType`).
Each loop iteration marks a previously unmarked key of the table, so
`aliasMap.length + 1` iterations always reach the loop's exit. -/
def resolveKeyChain (aliasMap : AliasMap) (rawKey : String) : String :=
  resolveKeyChainGas (aliasMap.length + 1) aliasMap ∅ rawKey

/-- Gas stability: with gas exceeding the number of unvisited keys, one more
unit of gas does not change the result. -/
theorem resolveKeyChainGas_stable {am : AliasMap} :
    ∀ {gas : Nat} {vk : Finset String} {cur : String},
      ((am.map Prod.fst).toFinset \ vk).card < gas →
      resolveKeyChainGas (gas + 1) am vk cur = resolveKeyChainGas gas am vk cur := by
  intro gas
  induction gas with
  | zero => intro vk cur h; exact absurd h (Nat.not_lt_zero _)
  | succ g ih =>
    intro vk cur h
    show (if cur ∈ vk then cur else _) = (if cur ∈ vk then cur else _)
    by_cases hv : cur ∈ vk
    · rw [if_pos hv, if_pos hv]
    · rw [if_neg hv, if_neg hv]
      cases hl : lookupStr am cur with
      | none => rfl
      | some base =>
        simp only
        by_cases hb : base = cur
        · rw [if_pos hb, if_pos hb]
        · rw [if_neg hb, if_neg hb]
          apply ih
          have hmem : cur ∈ (am.map Prod.fst).toFinset := by
            simpa using lookupStr_mem_keys am cur base hl
          have hlt : ((am.map Prod.fst).toFinset \ insert cur vk).card <
              ((am.map Prod.fst).toFinset \ vk).card := by
            apply Finset.card_lt_card
            constructor
            · exact Finset.sdiff_subset_sdiff (le_refl _) (Finset.subset_insert _ _)
            · intro hsub
              have : cur ∈ (am.map Prod.fst).toFinset \ insert cur vk :=
                hsub (by simp [Finset.mem_sdiff, hmem, hv])
              simp [Finset.mem_sdiff] at this
          omega

/-- With sufficient gas the loop satisfies the gas-free recurrence of the Go
`for` loop: the gas bound is never what stops it. -/
theorem resolveKeyChainGas_spec {am : AliasMap} {gas : Nat} {vk : Finset String}
    {cur : String} (h : ((am.map Prod.fst).toFinset \ vk).card < gas) :
    resolveKeyChainGas gas am vk cur =
      if cur ∈ vk then cur
      else
        match lookupStr am cur with
        | some base =>
          if base = cur then cur
          else resolveKeyChainGas gas am (insert cur vk) base
        | none => cur := by
  cases gas with
  | zero => exact absurd h (Nat.not_lt_zero _)
  | succ g =>
    show (if cur ∈ vk then cur else _) = _
    by_cases hv : cur ∈ vk
    · rw [if_pos hv, if_pos hv]
    · rw [if_neg hv, if_neg hv]
      cases hl : lookupStr am cur with
      | none => rfl
      | some base =>
        simp only
        by_cases hb : base = cur
        · rw [if_pos hb, if_pos hb]
        · rw [if_neg hb, if_neg hb]
          have hmem : cur ∈ (am.map Prod.fst).toFinset := by
            simpa using lookupStr_mem_keys am cur base hl
          have hlt : ((am.map Prod.fst).toFinset \ insert cur vk).card <
              ((am.map Prod.fst).toFinset \ vk).card := by
            apply Finset.card_lt_card
            constructor
            · exact Finset.sdiff_subset_sdiff (le_refl _) (Finset.subset_insert _ _)
            · intro hsub
              have : cur ∈ (am.map Prod.fst).toFinset \ insert cur vk :=
                hsub (by simp [Finset.mem_sdiff, hmem, hv])
              simp [Finset.mem_sdiff] at this
          exact (resolveKeyChainGas_stable (by omega)).symm

/-- The type of the recursive translator: expression, alias table, enclosing
generic parameters, struct table, generic-parameter substitution, visited
set, to result text and final visited set (`none` = fuel exhausted). -/
abbrev GoFun := String → AliasMap → List String → StructMap →
  TypeParamMapping → Visited → Option (String × Visited)

/-- `checkAliasTypes` of the source, parameterised by the recursive
translator `go`: a key of the alias table mapping to itself yields `any`;
mapping to something else is recursively mapped; a non-key yields `""`
(the caller falls through). -/
def checkAliasTypesF (go : GoFun) (goType : String) (aliasMap : AliasMap)
    (typeParams : List String) (structMap : StructMap)
    (typeParamMapping : TypeParamMapping) (visited : Visited) :
    Option (String × Visited) :=
  (lookupStr aliasMap goType).elim
    (some ("", visited))
    (fun base =>
      if base = goType then some ("any", visited)
      else go base aliasMap typeParams structMap typeParamMapping visited)

/-- The key-resolution block of `parseMapType`: a `struct{...}` literal key
coerces to `string`; an integer-family key name maps to `number`; any other
key is resolved through the alias table to a fixed point and recursively
mapped, then forced to `string` unless it mapped to `string`, `number` or
`symbol`. -/
def mapKeyTSF (go : GoFun) (rawKey : String) (aliasMap : AliasMap)
    (typeParams : List String) (structMap : StructMap)
    (typeParamMapping : TypeParamMapping) (visited : Visited) :
    Option (String × Visited) :=
  if strStartsWith rawKey "struct\x7b" then some ("string", visited)
  else if rawKey ∈ intKeyNames then some ("number", visited)
  else
    (go (resolveKeyChain aliasMap rawKey) aliasMap typeParams structMap
        typeParamMapping visited).map
      (fun p =>
        ((if p.1 ≠ "string" ∧ p.1 ≠ "number" ∧ p.1 ≠ "symbol" then "string"
          else p.1), p.2))

/-- `parseMapType` of the source, parameterised by the recursive translator:
split `map[K]V` on the first `]` after the `map[` prefix
(`strings.SplitN(inner, "]", 2)`; no `]` ⇒ `any`), resolve the key, map the
value (parenthesised when it holds a union `|` and is neither
array-suffixed nor already parenthesised), and emit the index signature. -/
def parseMapTypeF (go : GoFun) (goType : String) (aliasMap : AliasMap)
    (typeParams : List String) (structMap : StructMap)
    (typeParamMapping : TypeParamMapping) (visited : Visited) :
    Option (String × Visited) :=
  (splitOnFirstChar ']' (goType.data.drop 4)).elim
    (some ("any", visited))
    (fun pr =>
      (mapKeyTSF go (trimSpace ⟨pr.1⟩) aliasMap typeParams structMap
          typeParamMapping visited).bind
        (fun kp =>
          (go (trimSpace ⟨pr.2⟩) aliasMap typeParams structMap
              typeParamMapping kp.2).map
            (fun vp =>
              ("\x7b [key: " ++ kp.1 ++ "]: " ++
               (if strContainsChar vp.1 '|' ∧ ¬ strEndsWith vp.1 "[]" ∧
                   ¬ strStartsWith vp.1 "(" then "(" ++ vp.1 ++ ")" else vp.1) ++
               " \x7d", vp.2))))

/-- The field loop of `ParseStructType`: each `;`-separated field text is
trimmed (empty ⇒ skipped), split into white-space-delimited tokens; with at
least two tokens the first is the field name and the rest, re-joined with
single spaces, is the recursively mapped type; otherwise the synthetic
field `unknown: any` is emitted. -/
def parseStructFieldsF (go : GoFun) : List (List Char) → AliasMap →
    List String → StructMap → TypeParamMapping → Visited →
    Option (List String × Visited)
  | [], _, _, _, _, visited => some ([], visited)
  | f :: rest, aliasMap, typeParams, structMap, typeParamMapping, visited =>
    if trimCh f = [] then
      parseStructFieldsF go rest aliasMap typeParams structMap
        typeParamMapping visited
    else if 2 ≤ (fieldsCh (trimCh f)).length then
      (go (joinSep " " (((fieldsCh (trimCh f)).drop 1).map
          (fun p => (⟨p⟩ : String)))) aliasMap typeParams structMap
          typeParamMapping visited).bind
        (fun p =>
          (parseStructFieldsF go rest aliasMap typeParams structMap
              typeParamMapping p.2).map
            (fun q =>
              (((⟨(fieldsCh (trimCh f)).headI⟩ : String) ++ ": " ++ p.1) :: q.1,
               q.2)))
    else
      (parseStructFieldsF go rest aliasMap typeParams structMap
          typeParamMapping visited).map
        (fun q => ("unknown: any" :: q.1, q.2))

/-- `ParseStructType` of the source, parameterised by the recursive
translator: strip the `struct{` prefix and the `}` suffix, split the body
on `;`, translate the fields, and assemble the object type text. -/
def ParseStructTypeF (go : GoFun) (goType : String) (aliasMap : AliasMap)
    (typeParams : List String) (structMap : StructMap)
    (typeParamMapping : TypeParamMapping) (visited : Visited) :
    Option (String × Visited) :=
  (parseStructFieldsF go
      (splitOnChar ';' (trimSuffixStr (trimPrefixStr goType "struct\x7b") "\x7d").data)
      aliasMap typeParams structMap typeParamMapping visited).map
    (fun p => ("\x7b " ++ joinSep "; " p.1 ++ " \x7d", p.2))

/-- The parameter loop of `CheckGenericPatterns`: recursively map every
split generic parameter, in order. -/
def mapGenericParamsF (go : GoFun) : List String → AliasMap → List String →
    StructMap → TypeParamMapping → Visited → Option (List String × Visited)
  | [], _, _, _, _, visited => some ([], visited)
  | p :: ps, aliasMap, typeParams, structMap, typeParamMapping, visited =>
    (go p aliasMap typeParams structMap typeParamMapping visited).bind
      (fun a =>
        (mapGenericParamsF go ps aliasMap typeParams structMap
            typeParamMapping a.2).map
          (fun b => (a.1 :: b.1, b.2)))

/-- `CheckGenericPatterns` of the source, parameterised by the recursive
translator: split the generic shape, map all parameters, replace the base
by its recursively mapped alias expansion when the alias table maps it to
something different from itself, and emit the angle-bracket
instantiation. -/
def CheckGenericPatternsF (go : GoFun) (goType : String) (aliasMap : AliasMap)
    (typeParams : List String) (structMap : StructMap)
    (typeParamMapping : TypeParamMapping) (visited : Visited) :
    Option (String × Visited) :=
  (mapGenericParamsF go (SplitGenericType goType).2 aliasMap typeParams
      structMap typeParamMapping visited).bind
    (fun pr =>
      (lookupStr aliasMap (SplitGenericType goType).1).elim
        (some ((SplitGenericType goType).1 ++ "<" ++ joinSep ", " pr.1 ++ ">", pr.2))
        (fun baseAlias =>
          if baseAlias ≠ (SplitGenericType goType).1 then
            (go baseAlias aliasMap typeParams structMap typeParamMapping
                pr.2).map
              (fun b => (b.1 ++ "<" ++ joinSep ", " pr.1 ++ ">", b.2))
          else
            some ((SplitGenericType goType).1 ++ "<" ++ joinSep ", " pr.1 ++ ">",
                  pr.2)))

/-- The body of `GoTypeToTSType` after the initial
`goType = strings.TrimSpace(goType)`, applied to the already-trimmed
expression and parameterised by the recursive translator used for all
nested calls.  The branches follow the source's resolution order: cycle
guard, generic-parameter substitution, empty input, literal special cases,
enclosing generic parameter, pointer, slice, map, inline struct,
generic-instantiation shape, then the alias/basic/complex/pass-through
tail.  Every branch ends by erasing the trimmed expression from the
threaded visited set (the Go `defer delete(visited, goType)`). -/
def goTypeToTSTypeTrimmedF (go : GoFun) (goType : String) (aliasMap : AliasMap)
    (typeParams : List String) (structMap : StructMap)
    (typeParamMapping : TypeParamMapping) (visited : Visited) :
    Option (String × Visited) :=
  if goType ∈ visited then some ("any", visited)
  else
    (lookupStr typeParamMapping goType).elim
      (if goType = "" then some ("", (insert goType visited).erase goType)
       else if checkSpecialCases goType ≠ "" then
         some (checkSpecialCases goType, (insert goType visited).erase goType)
       else if goType ∈ typeParams then
         some (goType, (insert goType visited).erase goType)
       else if strStartsWith goType "*" then
         (go (strDrop goType 1) aliasMap typeParams structMap
             typeParamMapping (insert goType visited)).map
           (fun p => (p.1 ++ " | null", p.2.erase goType))
       else if strStartsWith goType "[]" then
         (go (strDrop goType 2) aliasMap typeParams structMap
             typeParamMapping (insert goType visited)).map
           (fun p =>
             ((if strStartsWith p.1 "\x7b [key:" ∧ ¬ strStartsWith p.1 "(" then
                 "(" ++ p.1 ++ ")"
               else p.1) ++ "[]", p.2.erase goType))
       else if strStartsWith goType "map[" then
         (parseMapTypeF go goType aliasMap typeParams structMap
             typeParamMapping (insert goType visited)).map
           (fun p => (p.1, p.2.erase goType))
       else if strStartsWith goType "struct\x7b" then
         (ParseStructTypeF go goType aliasMap typeParams structMap
             typeParamMapping (insert goType visited)).map
           (fun p => (p.1, p.2.erase goType))
       else if genericShapeMatch goType then
         (CheckGenericPatternsF go goType aliasMap typeParams structMap
             typeParamMapping (insert goType visited)).map
           (fun p => (p.1, p.2.erase goType))
       else
         (checkAliasTypesF go goType aliasMap typeParams structMap
             typeParamMapping (insert goType visited)).map
           (fun p =>
             ((if p.1 ≠ "" then p.1
               else if checkBasicTypes goType ≠ goType then checkBasicTypes goType
               else if checkComplexTypes goType ≠ "" then checkComplexTypes goType
               else if IsAliasName goType then
                 (if IsUserDefinedStruct goType structMap then goType else goType)
               else goType), p.2.erase goType)))
      (fun mapped => some (mapped, (insert goType visited).erase goType))

/-- `GoTypeToTSType` of the source: the recursive Go-type → TypeScript-type
mapper.  `fuel` bounds the recursion depth (`none` = fuel exhausted); the
returned set is the state of `visited` when the Go function returns. -/
def goTypeToTSType : Nat → String → AliasMap → List String → StructMap →
    TypeParamMapping → Visited → Option (String × Visited)
  | 0, _, _, _, _, _, _ => none
  | fuel + 1, goType0, aliasMap, typeParams, structMap, typeParamMapping, visited =>
    goTypeToTSTypeTrimmedF (goTypeToTSType fuel) (trimSpace goType0) aliasMap
      typeParams structMap typeParamMapping visited

/-- The trimmed body at a given recursion budget for the nested calls. -/
abbrev goTypeToTSTypeTrimmed (fuel : Nat) : GoFun :=
  goTypeToTSTypeTrimmedF (goTypeToTSType fuel)

/-- `checkAliasTypes` at a given recursion budget. -/
abbrev checkAliasTypes (fuel : Nat) : GoFun :=
  checkAliasTypesF (goTypeToTSType fuel)

/-- The map-key resolution at a given recursion budget. -/
abbrev mapKeyTS (fuel : Nat) : GoFun := mapKeyTSF (goTypeToTSType fuel)

/-- `parseMapType` at a given recursion budget. -/
abbrev parseMapType (fuel : Nat) : GoFun := parseMapTypeF (goTypeToTSType fuel)

/-- The struct-field loop at a given recursion budget. -/
abbrev parseStructFields (fuel : Nat) := parseStructFieldsF (goTypeToTSType fuel)

/-- `ParseStructType` at a given recursion budget. -/
abbrev ParseStructType (fuel : Nat) : GoFun :=
  ParseStructTypeF (goTypeToTSType fuel)

/-- The generic-parameter loop at a given recursion budget. -/
abbrev mapGenericParams (fuel : Nat) := mapGenericParamsF (goTypeToTSType fuel)

/-- `CheckGenericPatterns` at a given recursion budget. -/
abbrev CheckGenericPatterns (fuel : Nat) : GoFun :=
  CheckGenericPatternsF (goTypeToTSType fuel)

/-- `parser.StructField`: a field in a Go struct (`Name`, `Type`, `Tags`;
`Type` rendered `typ`). -/
structure StructField where
  name : String
  typ : String
  tags : String
deriving DecidableEq, Repr

/-- `parser.GoStruct`: a Go struct definition. -/
structure GoStruct where
  name : String
  fields : List StructField
  typeParams : List String
deriving DecidableEq, Repr

/-- `parser.TypeAlias`: a Go type alias definition. -/
structure TypeAlias where
  name : String
  typeParams : List String
  underlying : String
deriving DecidableEq, Repr

/-- `parser.GoFileData`: parsed Go file information. -/
structure GoFileData where
  structs : List GoStruct
  aliases : List TypeAlias
deriving DecidableEq, Repr

/-- Model of `fmt`'s `%q` verb on a path string (double quotes around the
text; escape sequences for exotic characters are not modelled, and the
counterexamples below use only plain characters). -/
def goQuote (s : String) : String := "\"" ++ s ++ "\""

/-- `go2ts.Convert` of `pkg/go2ts`: parse, then generate.  The two
effectful collaborators `parser.ParseGoFiles` (directory walking) and
`generator.GenerateTypeScript` (file writing) appear as function
parameters producing `Except`; errors are modelled by their message
strings, and `fmt.Errorf("...%q: %w", dir, err)` by string concatenation
of the fixed context, the quoted path and the wrapped error's message. -/
def Convert (inputDir outputFile : String)
    (parseGoFiles : String → Except String GoFileData)
    (generateTypeScript : GoFileData → String → Except String Unit) :
    Except String Unit :=
  match parseGoFiles inputDir with
  | .error e =>
    .error ("failed to parse Go files in " ++ goQuote inputDir ++ ": " ++ e)
  | .ok data =>
    match generateTypeScript data outputFile with
    | .error e =>
      .error ("failed to generate TypeScript file " ++ goQuote outputFile ++ ": " ++ e)
    | .ok _ => .ok ()

section FrameLemmas

variable {am : AliasMap} {tp : List String} {sm : StructMap} {tpm : TypeParamMapping}

theorem checkAliasTypes_frame {fuel : Nat}
    (H : ∀ e v s v', goTypeToTSType fuel e am tp sm tpm v = some (s, v') → v' = v) :
    ∀ g v s v', checkAliasTypes fuel g am tp sm tpm v = some (s, v') → v' = v := by
  intro g v s v' h
  unfold checkAliasTypes checkAliasTypesF at h
  cases hl : lookupStr am g with
  | none =>
    rw [hl] at h
    simp only [Option.elim, Option.some.injEq, Prod.mk.injEq] at h
    exact h.2.symm
  | some base =>
    rw [hl] at h
    simp only [Option.elim] at h
    by_cases hb : base = g
    · rw [if_pos hb] at h
      simp only [Option.some.injEq, Prod.mk.injEq] at h
      exact h.2.symm
    · rw [if_neg hb] at h
      exact H _ _ _ _ h

theorem mapKeyTS_frame {fuel : Nat}
    (H : ∀ e v s v', goTypeToTSType fuel e am tp sm tpm v = some (s, v') → v' = v) :
    ∀ g v s v', mapKeyTS fuel g am tp sm tpm v = some (s, v') → v' = v := by
  intro g v s v' h
  unfold mapKeyTS mapKeyTSF at h
  by_cases h1 : strStartsWith g "struct\x7b" = true
  · rw [if_pos h1] at h
    simp only [Option.some.injEq, Prod.mk.injEq] at h
    exact h.2.symm
  · rw [if_neg h1] at h
    by_cases h2 : g ∈ intKeyNames
    · rw [if_pos h2] at h
      simp only [Option.some.injEq, Prod.mk.injEq] at h
      exact h.2.symm
    · rw [if_neg h2] at h
      rw [Option.map_eq_some'] at h
      obtain ⟨p, hp, hf⟩ := h
      have e0 : p.2 = v' := congrArg Prod.snd hf
      rw [← e0]
      exact H _ _ _ _ hp

theorem parseStructFields_frame {fuel : Nat}
    (H : ∀ e v s v', goTypeToTSType fuel e am tp sm tpm v = some (s, v') → v' = v) :
    ∀ fs v r v', parseStructFields fuel fs am tp sm tpm v = some (r, v') → v' = v := by
  intro fs
  induction fs with
  | nil =>
    intro v r v' h
    unfold parseStructFields parseStructFieldsF at h
    simp only [Option.some.injEq, Prod.mk.injEq] at h
    exact h.2.symm
  | cons f rest ih =>
    intro v r v' h
    unfold parseStructFields parseStructFieldsF at h
    by_cases h1 : trimCh f = []
    · rw [if_pos h1] at h
      exact ih _ _ _ h
    · rw [if_neg h1] at h
      by_cases h2 : 2 ≤ (fieldsCh (trimCh f)).length
      · rw [if_pos h2] at h
        rw [Option.bind_eq_some] at h
        obtain ⟨p, hp, hf⟩ := h
        rw [Option.map_eq_some'] at hf
        obtain ⟨q, hq, hg⟩ := hf
        have e0 : q.2 = v' := congrArg Prod.snd hg
        have e1 := H _ _ _ _ hp
        have e2 := ih _ _ _ hq
        rw [← e0, e2, e1]
      · rw [if_neg h2] at h
        rw [Option.map_eq_some'] at h
        obtain ⟨q, hq, hg⟩ := h
        have e0 : q.2 = v' := congrArg Prod.snd hg
        have e2 := ih _ _ _ hq
        rw [← e0, e2]

theorem ParseStructType_frame {fuel : Nat}
    (H : ∀ e v s v', goTypeToTSType fuel e am tp sm tpm v = some (s, v') → v' = v) :
    ∀ g v s v', ParseStructType fuel g am tp sm tpm v = some (s, v') → v' = v := by
  intro g v s v' h
  unfold ParseStructType ParseStructTypeF at h
  rw [Option.map_eq_some'] at h
  obtain ⟨p, hp, hf⟩ := h
  have e0 : p.2 = v' := congrArg Prod.snd hf
  rw [← e0]
  exact parseStructFields_frame H _ _ _ _ hp

theorem mapGenericParams_frame {fuel : Nat}
    (H : ∀ e v s v', goTypeToTSType fuel e am tp sm tpm v = some (s, v') → v' = v) :
    ∀ ps v r v', mapGenericParams fuel ps am tp sm tpm v = some (r, v') → v' = v := by
  intro ps
  induction ps with
  | nil =>
    intro v r v' h
    unfold mapGenericParams mapGenericParamsF at h
    simp only [Option.some.injEq, Prod.mk.injEq] at h
    exact h.2.symm
  | cons p rest ih =>
    intro v r v' h
    unfold mapGenericParams mapGenericParamsF at h
    rw [Option.bind_eq_some] at h
    obtain ⟨a, ha, hf⟩ := h
    rw [Option.map_eq_some'] at hf
    obtain ⟨b, hb, hg⟩ := hf
    have e0 : b.2 = v' := congrArg Prod.snd hg
    have e1 := H _ _ _ _ ha
    have e2 := ih _ _ _ hb
    rw [← e0, e2, e1]

theorem CheckGenericPatterns_frame {fuel : Nat}
    (H : ∀ e v s v', goTypeToTSType fuel e am tp sm tpm v = some (s, v') → v' = v) :
    ∀ g v s v', CheckGenericPatterns fuel g am tp sm tpm v = some (s, v') → v' = v := by
  intro g v s v' h
  unfold CheckGenericPatterns CheckGenericPatternsF at h
  rw [Option.bind_eq_some] at h
  obtain ⟨pr, hpr, hf⟩ := h
  have e1 := mapGenericParams_frame H _ _ _ _ hpr
  cases hl : lookupStr am (SplitGenericType g).1 with
  | none =>
    rw [hl] at hf
    simp only [Option.elim, Option.some.injEq, Prod.mk.injEq] at hf
    rw [← hf.2, e1]
  | some baseAlias =>
    rw [hl] at hf
    simp only [Option.elim] at hf
    by_cases hb : baseAlias ≠ (SplitGenericType g).1
    · rw [if_pos hb] at hf
      rw [Option.map_eq_some'] at hf
      obtain ⟨b, hbb, hg⟩ := hf
      have e0 : b.2 = v' := congrArg Prod.snd hg
      have e2 := H _ _ _ _ hbb
      rw [← e0, e2, e1]
    · rw [if_neg hb] at hf
      simp only [Option.some.injEq, Prod.mk.injEq] at hf
      rw [← hf.2, e1]

theorem parseMapType_frame {fuel : Nat}
    (H : ∀ e v s v', goTypeToTSType fuel e am tp sm tpm v = some (s, v') → v' = v) :
    ∀ g v s v', parseMapType fuel g am tp sm tpm v = some (s, v') → v' = v := by
  intro g v s v' h
  unfold parseMapType parseMapTypeF at h
  cases hl : splitOnFirstChar ']' (g.data.drop 4) with
  | none =>
    rw [hl] at h
    simp only [Option.elim, Option.some.injEq, Prod.mk.injEq] at h
    exact h.2.symm
  | some pr =>
    rw [hl] at h
    simp only [Option.elim] at h
    rw [Option.bind_eq_some] at h
    obtain ⟨kp, hkp, hf⟩ := h
    rw [Option.map_eq_some'] at hf
    obtain ⟨vp, hvp, hg⟩ := hf
    have e0 : vp.2 = v' := congrArg Prod.snd hg
    have e1 := mapKeyTS_frame H _ _ _ _ hkp
    have e2 := H _ _ _ _ hvp
    rw [← e0, e2, e1]

theorem goTypeToTSTypeTrimmed_frame {fuel : Nat}
    (H : ∀ e v s v', goTypeToTSType fuel e am tp sm tpm v = some (s, v') → v' = v) :
    ∀ g v s v', goTypeToTSTypeTrimmed fuel g am tp sm tpm v = some (s, v') → v' = v := by
  intro g v s v' h
  unfold goTypeToTSTypeTrimmed goTypeToTSTypeTrimmedF at h
  by_cases h1 : g ∈ v
  · rw [if_pos h1] at h
    simp only [Option.some.injEq, Prod.mk.injEq] at h
    exact h.2.symm
  · rw [if_neg h1] at h
    have herase : (insert g v).erase g = v := Finset.erase_insert h1
    cases hl : lookupStr tpm g with
    | some mapped =>
      rw [hl] at h
      simp only [Option.elim, Option.some.injEq, Prod.mk.injEq] at h
      rw [← h.2, herase]
    | none =>
      rw [hl] at h
      simp only [Option.elim] at h
      by_cases h2 : g = ""
      · rw [if_pos h2] at h
        simp only [Option.some.injEq, Prod.mk.injEq] at h
        rw [← h.2, herase]
      · rw [if_neg h2] at h
        by_cases h3 : checkSpecialCases g ≠ ""
        · rw [if_pos h3] at h
          simp only [Option.some.injEq, Prod.mk.injEq] at h
          rw [← h.2, herase]
        · rw [if_neg h3] at h
          by_cases h4 : g ∈ tp
          · rw [if_pos h4] at h
            simp only [Option.some.injEq, Prod.mk.injEq] at h
            rw [← h.2, herase]
          · rw [if_neg h4] at h
            by_cases h5 : strStartsWith g "*" = true
            · rw [if_pos h5] at h
              rw [Option.map_eq_some'] at h
              obtain ⟨p, hp, hf⟩ := h
              have e0 : p.2.erase g = v' := congrArg Prod.snd hf
              have e1 := H _ _ _ _ hp
              rw [← e0, e1, herase]
            · rw [if_neg h5] at h
              by_cases h6 : strStartsWith g "[]" = true
              · rw [if_pos h6] at h
                rw [Option.map_eq_some'] at h
                obtain ⟨p, hp, hf⟩ := h
                have e0 : p.2.erase g = v' := congrArg Prod.snd hf
                have e1 := H _ _ _ _ hp
                rw [← e0, e1, herase]
              · rw [if_neg h6] at h
                by_cases h7 : strStartsWith g "map[" = true
                · rw [if_pos h7] at h
                  rw [Option.map_eq_some'] at h
                  obtain ⟨p, hp, hf⟩ := h
                  have e0 : p.2.erase g = v' := congrArg Prod.snd hf
                  have e1 := parseMapType_frame H _ _ _ _ hp
                  rw [← e0, e1, herase]
                · rw [if_neg h7] at h
                  by_cases h8 : strStartsWith g "struct\x7b" = true
                  · rw [if_pos h8] at h
                    rw [Option.map_eq_some'] at h
                    obtain ⟨p, hp, hf⟩ := h
                    have e0 : p.2.erase g = v' := congrArg Prod.snd hf
                    have e1 := ParseStructType_frame H _ _ _ _ hp
                    rw [← e0, e1, herase]
                  · rw [if_neg h8] at h
                    by_cases h9 : genericShapeMatch g = true
                    · rw [if_pos h9] at h
                      rw [Option.map_eq_some'] at h
                      obtain ⟨p, hp, hf⟩ := h
                      have e0 : p.2.erase g = v' := congrArg Prod.snd hf
                      have e1 := CheckGenericPatterns_frame H _ _ _ _ hp
                      rw [← e0, e1, herase]
                    · rw [if_neg h9] at h
                      rw [Option.map_eq_some'] at h
                      obtain ⟨p, hp, hf⟩ := h
                      have e0 : p.2.erase g = v' := congrArg Prod.snd hf
                      have e1 := checkAliasTypes_frame H _ _ _ _ hp
                      rw [← e0, e1, herase]

/-- Frame property of the translator: whenever a call returns, the visited
set it returns is exactly the one it received. -/
theorem goTypeToTSType_frame :
    ∀ (fuel : Nat) (e : String) (v : Visited) (s : String) (v' : Visited),
      goTypeToTSType fuel e am tp sm tpm v = some (s, v') → v' = v := by
  intro fuel
  induction fuel with
  | zero =>
    intro e v s v' h
    rw [goTypeToTSType] at h
    exact Option.noConfusion h
  | succ n ih =>
    intro e v s v' h
    rw [goTypeToTSType] at h
    exact goTypeToTSTypeTrimmed_frame ih _ _ _ _ h

end FrameLemmas

section MonoLemmas

variable {am : AliasMap} {tp : List String} {sm : StructMap} {tpm : TypeParamMapping}

theorem checkAliasTypes_mono {fuel : Nat}
    (H : ∀ e v r, goTypeToTSType fuel e am tp sm tpm v = some r →
         goTypeToTSType (fuel + 1) e am tp sm tpm v = some r) :
    ∀ g v r, checkAliasTypes fuel g am tp sm tpm v = some r →
      checkAliasTypes (fuel + 1) g am tp sm tpm v = some r := by
  intro g v r h
  unfold checkAliasTypes checkAliasTypesF at h ⊢
  cases hl : lookupStr am g with
  | none => rw [hl] at h; simp only [Option.elim] at h ⊢; exact h
  | some base =>
    rw [hl] at h
    simp only [Option.elim] at h ⊢
    by_cases hb : base = g
    · rw [if_pos hb] at h ⊢; exact h
    · rw [if_neg hb] at h ⊢; exact H _ _ _ h

theorem mapKeyTS_mono {fuel : Nat}
    (H : ∀ e v r, goTypeToTSType fuel e am tp sm tpm v = some r →
         goTypeToTSType (fuel + 1) e am tp sm tpm v = some r) :
    ∀ g v r, mapKeyTS fuel g am tp sm tpm v = some r →
      mapKeyTS (fuel + 1) g am tp sm tpm v = some r := by
  intro g v r h
  unfold mapKeyTS mapKeyTSF at h ⊢
  by_cases h1 : strStartsWith g "struct\x7b" = true
  · rw [if_pos h1] at h ⊢; exact h
  · rw [if_neg h1] at h ⊢
    by_cases h2 : g ∈ intKeyNames
    · rw [if_pos h2] at h ⊢; exact h
    · rw [if_neg h2] at h ⊢
      rw [Option.map_eq_some'] at h
      obtain ⟨p, hp, hf⟩ := h
      rw [H _ _ _ hp, Option.map_some']
      exact congrArg some hf

theorem parseStructFields_mono {fuel : Nat}
    (H : ∀ e v r, goTypeToTSType fuel e am tp sm tpm v = some r →
         goTypeToTSType (fuel + 1) e am tp sm tpm v = some r) :
    ∀ fs v r, parseStructFields fuel fs am tp sm tpm v = some r →
      parseStructFields (fuel + 1) fs am tp sm tpm v = some r := by
  intro fs
  induction fs with
  | nil => intro v r h; rw [parseStructFields] at h ⊢; exact h
  | cons f rest ih =>
    intro v r h
    unfold parseStructFields parseStructFieldsF at h ⊢
    by_cases h1 : trimCh f = []
    · rw [if_pos h1] at h ⊢; exact ih _ _ h
    · rw [if_neg h1] at h ⊢
      by_cases h2 : 2 ≤ (fieldsCh (trimCh f)).length
      · rw [if_pos h2] at h ⊢
        rw [Option.bind_eq_some] at h
        obtain ⟨p, hp, hf⟩ := h
        rw [Option.map_eq_some'] at hf
        obtain ⟨q, hq, hg⟩ := hf
        have ih2 : parseStructFieldsF (goTypeToTSType (fuel + 1)) rest am tp sm tpm p.2 = some q := ih _ _ hq
        rw [H _ _ _ hp]
        rw [Option.some_bind]
        rw [ih2, Option.map_some']
        exact congrArg some hg
      · rw [if_neg h2] at h ⊢
        rw [Option.map_eq_some'] at h
        obtain ⟨q, hq, hg⟩ := h
        have ih2 : parseStructFieldsF (goTypeToTSType (fuel + 1)) rest am tp sm tpm v = some q := ih _ _ hq
        rw [ih2, Option.map_some']
        exact congrArg some hg

theorem ParseStructType_mono {fuel : Nat}
    (H : ∀ e v r, goTypeToTSType fuel e am tp sm tpm v = some r →
         goTypeToTSType (fuel + 1) e am tp sm tpm v = some r) :
    ∀ g v r, ParseStructType fuel g am tp sm tpm v = some r →
      ParseStructType (fuel + 1) g am tp sm tpm v = some r := by
  intro g v r h
  unfold ParseStructType ParseStructTypeF at h ⊢
  rw [Option.map_eq_some'] at h
  obtain ⟨p, hp, hf⟩ := h
  have hp2 : parseStructFieldsF (goTypeToTSType (fuel + 1))
      (splitOnChar ';' (trimSuffixStr (trimPrefixStr g "struct\x7b") "\x7d").data)
      am tp sm tpm v = some p := parseStructFields_mono H _ _ _ hp
  rw [hp2, Option.map_some']
  exact congrArg some hf

theorem mapGenericParams_mono {fuel : Nat}
    (H : ∀ e v r, goTypeToTSType fuel e am tp sm tpm v = some r →
         goTypeToTSType (fuel + 1) e am tp sm tpm v = some r) :
    ∀ ps v r, mapGenericParams fuel ps am tp sm tpm v = some r →
      mapGenericParams (fuel + 1) ps am tp sm tpm v = some r := by
  intro ps
  induction ps with
  | nil => intro v r h; rw [mapGenericParams] at h ⊢; exact h
  | cons p rest ih =>
    intro v r h
    unfold mapGenericParams mapGenericParamsF at h ⊢
    rw [Option.bind_eq_some] at h
    obtain ⟨a, ha, hf⟩ := h
    rw [Option.map_eq_some'] at hf
    obtain ⟨b, hb, hg⟩ := hf
    have ih2 : mapGenericParamsF (goTypeToTSType (fuel + 1)) rest am tp sm tpm a.2 = some b := ih _ _ hb
    rw [H _ _ _ ha, Option.some_bind, ih2, Option.map_some']
    exact congrArg some hg

theorem CheckGenericPatterns_mono {fuel : Nat}
    (H : ∀ e v r, goTypeToTSType fuel e am tp sm tpm v = some r →
         goTypeToTSType (fuel + 1) e am tp sm tpm v = some r) :
    ∀ g v r, CheckGenericPatterns fuel g am tp sm tpm v = some r →
      CheckGenericPatterns (fuel + 1) g am tp sm tpm v = some r := by
  intro g v r h
  unfold CheckGenericPatterns CheckGenericPatternsF at h ⊢
  rw [Option.bind_eq_some] at h
  obtain ⟨pr, hpr, hf⟩ := h
  have hpr2 : mapGenericParamsF (goTypeToTSType (fuel + 1)) (SplitGenericType g).2
      am tp sm tpm v = some pr := mapGenericParams_mono H _ _ _ hpr
  rw [hpr2, Option.some_bind]
  cases hl : lookupStr am (SplitGenericType g).1 with
  | none =>
    rw [hl] at hf
    simp only [Option.elim] at hf ⊢
    exact hf
  | some baseAlias =>
    rw [hl] at hf
    simp only [Option.elim] at hf ⊢
    by_cases hb : baseAlias ≠ (SplitGenericType g).1
    · rw [if_pos hb] at hf ⊢
      rw [Option.map_eq_some'] at hf
      obtain ⟨b, hbb, hg⟩ := hf
      rw [H _ _ _ hbb, Option.map_some']
      exact congrArg some hg
    · rw [if_neg hb] at hf ⊢
      exact hf

theorem parseMapType_mono {fuel : Nat}
    (H : ∀ e v r, goTypeToTSType fuel e am tp sm tpm v = some r →
         goTypeToTSType (fuel + 1) e am tp sm tpm v = some r) :
    ∀ g v r, parseMapType fuel g am tp sm tpm v = some r →
      parseMapType (fuel + 1) g am tp sm tpm v = some r := by
  intro g v r h
  unfold parseMapType parseMapTypeF at h ⊢
  cases hl : splitOnFirstChar ']' (g.data.drop 4) with
  | none => rw [hl] at h; simp only [Option.elim] at h ⊢; exact h
  | some pr =>
    rw [hl] at h
    simp only [Option.elim] at h ⊢
    rw [Option.bind_eq_some] at h
    obtain ⟨kp, hkp, hf⟩ := h
    rw [Option.map_eq_some'] at hf
    obtain ⟨vp, hvp, hg⟩ := hf
    have hkp2 : mapKeyTSF (goTypeToTSType (fuel + 1)) (trimSpace (⟨pr.1⟩ : String))
        am tp sm tpm v = some kp := mapKeyTS_mono H _ _ _ hkp
    rw [hkp2, Option.some_bind, H _ _ _ hvp, Option.map_some']
    exact congrArg some hg

theorem goTypeToTSTypeTrimmed_mono {fuel : Nat}
    (H : ∀ e v r, goTypeToTSType fuel e am tp sm tpm v = some r →
         goTypeToTSType (fuel + 1) e am tp sm tpm v = some r) :
    ∀ g v r, goTypeToTSTypeTrimmed fuel g am tp sm tpm v = some r →
      goTypeToTSTypeTrimmed (fuel + 1) g am tp sm tpm v = some r := by
  intro g v r h
  unfold goTypeToTSTypeTrimmed goTypeToTSTypeTrimmedF at h ⊢
  by_cases h1 : g ∈ v
  · rw [if_pos h1] at h ⊢; exact h
  · rw [if_neg h1] at h ⊢
    cases hl : lookupStr tpm g with
    | some mapped =>
      rw [hl] at h
      simp only [Option.elim] at h ⊢
      exact h
    | none =>
      rw [hl] at h
      simp only [Option.elim] at h ⊢
      by_cases h2 : g = ""
      · rw [if_pos h2] at h ⊢; exact h
      · rw [if_neg h2] at h ⊢
        by_cases h3 : checkSpecialCases g ≠ ""
        · rw [if_pos h3] at h ⊢; exact h
        · rw [if_neg h3] at h ⊢
          by_cases h4 : g ∈ tp
          · rw [if_pos h4] at h ⊢; exact h
          · rw [if_neg h4] at h ⊢
            by_cases h5 : strStartsWith g "*" = true
            · rw [if_pos h5] at h ⊢
              rw [Option.map_eq_some'] at h
              obtain ⟨p, hp, hf⟩ := h
              rw [H _ _ _ hp, Option.map_some']
              exact congrArg some hf
            · rw [if_neg h5] at h ⊢
              by_cases h6 : strStartsWith g "[]" = true
              · rw [if_pos h6] at h ⊢
                rw [Option.map_eq_some'] at h
                obtain ⟨p, hp, hf⟩ := h
                rw [H _ _ _ hp, Option.map_some']
                exact congrArg some hf
              · rw [if_neg h6] at h ⊢
                by_cases h7 : strStartsWith g "map[" = true
                · rw [if_pos h7] at h ⊢
                  rw [Option.map_eq_some'] at h
                  obtain ⟨p, hp, hf⟩ := h
                  have hp2 : parseMapTypeF (goTypeToTSType (fuel + 1)) g am tp sm tpm
                      (insert g v) = some p := parseMapType_mono H _ _ _ hp
                  rw [hp2, Option.map_some']
                  exact congrArg some hf
                · rw [if_neg h7] at h ⊢
                  by_cases h8 : strStartsWith g "struct\x7b" = true
                  · rw [if_pos h8] at h ⊢
                    rw [Option.map_eq_some'] at h
                    obtain ⟨p, hp, hf⟩ := h
                    have hp2 : ParseStructTypeF (goTypeToTSType (fuel + 1)) g am tp sm tpm
                        (insert g v) = some p := ParseStructType_mono H _ _ _ hp
                    rw [hp2, Option.map_some']
                    exact congrArg some hf
                  · rw [if_neg h8] at h ⊢
                    by_cases h9 : genericShapeMatch g = true
                    · rw [if_pos h9] at h ⊢
                      rw [Option.map_eq_some'] at h
                      obtain ⟨p, hp, hf⟩ := h
                      have hp2 : CheckGenericPatternsF (goTypeToTSType (fuel + 1)) g am tp sm tpm
                          (insert g v) = some p := CheckGenericPatterns_mono H _ _ _ hp
                      rw [hp2, Option.map_some']
                      exact congrArg some hf
                    · rw [if_neg h9] at h ⊢
                      rw [Option.map_eq_some'] at h
                      obtain ⟨p, hp, hf⟩ := h
                      have hp2 : checkAliasTypesF (goTypeToTSType (fuel + 1)) g am tp sm tpm
                          (insert g v) = some p := checkAliasTypes_mono H _ _ _ hp
                      rw [hp2, Option.map_some']
                      exact congrArg some hf

/-- Fuel monotonicity, one step: a run that succeeds with `fuel` succeeds
with `fuel + 1` and returns the same value. -/
theorem goTypeToTSType_mono_succ :
    ∀ (fuel : Nat) (e : String) (v : Visited) (r : String × Visited),
      goTypeToTSType fuel e am tp sm tpm v = some r →
      goTypeToTSType (fuel + 1) e am tp sm tpm v = some r := by
  intro fuel
  induction fuel with
  | zero =>
    intro e v r h
    rw [goTypeToTSType] at h
    exact Option.noConfusion h
  | succ n ih =>
    intro e v r h
    rw [goTypeToTSType] at h ⊢
    exact goTypeToTSTypeTrimmed_mono ih _ _ _ h

/-- Fuel monotonicity: a run that succeeds with `fuel` succeeds with any
larger fuel and returns the same value. -/
theorem goTypeToTSType_mono_le {fuel fuel' : Nat} (hle : fuel ≤ fuel') :
    ∀ (e : String) (v : Visited) (r : String × Visited),
      goTypeToTSType fuel e am tp sm tpm v = some r →
      goTypeToTSType fuel' e am tp sm tpm v = some r := by
  induction hle with
  | refl => intro e v r h; exact h
  | step _ ih =>
    intro e v r h
    exact goTypeToTSType_mono_succ _ _ _ _ (ih _ _ _ h)

end MonoLemmas

theorem charToNatLt (c : Char) : c.val.toNat < 1114112 := by
  rcases c.valid with h | h
  · exact Nat.lt_trans h (by norm_num)
  · exact h.2

instance : Finite Char := by
  apply Finite.of_injective (fun c : Char => (⟨c.val.toNat, charToNatLt c⟩ : Fin 1114112))
  intro a b hab
  simp only [Fin.mk.injEq] at hab
  have h2 : a.val = b.val := by
    apply UInt32.eq_of_toBitVec_eq
    apply BitVec.eq_of_toNat_eq
    exact hab
  exact Char.ext h2

/-- Strings of bounded length form a finite set (`Char` is finite). -/
theorem stringsLenLE_finite (n : Nat) : {s : String | s.data.length ≤ n}.Finite := by
  have h1 : {l : List Char | l.length ≤ n}.Finite := List.finite_length_le Char n
  have h2 : {s : String | s.data.length ≤ n} ⊆
      (fun l => (⟨l⟩ : String)) '' {l : List Char | l.length ≤ n} := by
    intro s hs
    exact ⟨s.data, hs, rfl⟩
  exact (h1.image _).subset h2

theorem dropWhile_length_le (p : Char → Bool) (l : List Char) :
    (l.dropWhile p).length ≤ l.length := (List.dropWhile_sublist p).length_le

theorem trimCh_length_le (l : List Char) : (trimCh l).length ≤ l.length := by
  unfold trimCh
  calc ((l.dropWhile isGoSpace).reverse.dropWhile isGoSpace).reverse.length
      = ((l.dropWhile isGoSpace).reverse.dropWhile isGoSpace).length := by
        rw [List.length_reverse]
    _ ≤ (l.dropWhile isGoSpace).reverse.length := dropWhile_length_le _ _
    _ = (l.dropWhile isGoSpace).length := by rw [List.length_reverse]
    _ ≤ l.length := dropWhile_length_le _ _

theorem trimSpace_data_length_le (s : String) :
    (trimSpace s).data.length ≤ s.data.length := trimCh_length_le s.data

theorem trimCh_eq_rdrop (l : List Char) :
    trimCh l = List.rdropWhile isGoSpace (l.dropWhile isGoSpace) := rfl

theorem dropWhile_head_not {p : Char → Bool} {l : List Char} {a : Char} {t : List Char}
    (h : l.dropWhile p = a :: t) : p a = false := by
  induction l with
  | nil => simp [List.dropWhile] at h
  | cons b l ih =>
    by_cases hb : p b
    · rw [List.dropWhile_cons_of_pos hb] at h
      exact ih h
    · rw [List.dropWhile_cons_of_neg hb] at h
      cases h
      simpa using hb

theorem trimCh_idem (l : List Char) : trimCh (trimCh l) = trimCh l := by
  rw [trimCh_eq_rdrop l]
  rw [trimCh_eq_rdrop]
  have hlead : (List.rdropWhile isGoSpace (l.dropWhile isGoSpace)).dropWhile isGoSpace =
      List.rdropWhile isGoSpace (l.dropWhile isGoSpace) := by
    cases hcr : List.rdropWhile isGoSpace (l.dropWhile isGoSpace) with
    | nil => rfl
    | cons a t =>
      obtain ⟨u, hu⟩ := List.rdropWhile_prefix isGoSpace (l.dropWhile isGoSpace)
      rw [hcr] at hu
      have hm : l.dropWhile isGoSpace = a :: (t ++ u) := by
        rw [← hu]; rfl
      have : isGoSpace a = false := dropWhile_head_not hm
      rw [List.dropWhile_cons_of_neg (by simp [this])]
  rw [hlead, List.rdropWhile_idempotent]

theorem splitOnFirstChar_lengths {c : Char} :
    ∀ {l a b : List Char}, splitOnFirstChar c l = some (a, b) →
      a.length + 1 + b.length = l.length := by
  intro l
  induction l with
  | nil => intro a b h; simp [splitOnFirstChar] at h
  | cons x l ih =>
    intro a b h
    unfold splitOnFirstChar at h
    by_cases hx : x = c
    · rw [if_pos hx] at h
      simp only [Option.some.injEq, Prod.mk.injEq] at h
      rw [← h.1, ← h.2]
      simp [Nat.add_comm]
    · rw [if_neg hx] at h
      rw [Option.map_eq_some'] at h
      obtain ⟨p, hp, hf⟩ := h
      have := ih hp
      have h1 : x :: p.1 = a := congrArg Prod.fst hf
      have h2 : p.2 = b := congrArg Prod.snd hf
      rw [← h1, ← h2]
      simp only [List.length_cons]
      omega

theorem splitOnChar_mem_length {c : Char} :
    ∀ {l x : List Char}, x ∈ splitOnChar c l → x.length ≤ l.length := by
  intro l
  induction l with
  | nil =>
    intro x h
    simp only [splitOnChar, List.mem_singleton] at h
    simp [h]
  | cons a l ih =>
    intro x h
    unfold splitOnChar at h
    by_cases ha : a = c
    · rw [if_pos ha] at h
      rcases List.mem_cons.mp h with h1 | h1
      · simp [h1]
      · exact Nat.le_succ_of_le (ih h1)
    · rw [if_neg ha] at h
      cases hs : splitOnChar c l with
      | nil =>
        rw [hs] at h
        simp only [List.mem_singleton] at h
        subst h
        simp
      | cons y t =>
        rw [hs] at h
        rcases List.mem_cons.mp h with h1 | h1
        · subst h1
          have : y ∈ splitOnChar c l := by rw [hs]; exact List.mem_cons_self _ _
          have := ih this
          simp only [List.length_cons]
          omega
        · have : x ∈ splitOnChar c l := by rw [hs]; exact List.mem_cons_of_mem _ h1
          exact Nat.le_succ_of_le (ih this)

theorem str_data_append (a b : String) : (a ++ b).data = a.data ++ b.data := rfl

/-- The length of `joinSep " "` over parts, computed at the list level. -/
def joinLenL : List (List Char) → Nat
  | [] => 0
  | [x] => x.length
  | x :: y :: t => x.length + 1 + joinLenL (y :: t)

theorem joinSep_space_length : ∀ xs : List (List Char),
    (joinSep " " (xs.map (fun p => (⟨p⟩ : String)))).data.length = joinLenL xs
  | [] => rfl
  | [x] => by simp [joinSep, joinLenL]
  | x :: y :: t => by
    have ih := joinSep_space_length (y :: t)
    simp only [List.map_cons, joinSep, joinLenL]
    rw [str_data_append, str_data_append]
    simp only [List.length_append]
    simp only [List.map_cons] at ih
    rw [ih]
    simp [joinLenL]

theorem joinLenL_cons_le (x : List Char) (xs : List (List Char)) :
    joinLenL (x :: xs) ≤ x.length + 1 + joinLenL xs := by
  cases xs with
  | nil => simp [joinLenL]
  | cons y t => simp [joinLenL]

theorem joinLenL_drop_one (xs : List (List Char)) :
    joinLenL (xs.drop 1) ≤ joinLenL xs := by
  cases xs with
  | nil => simp
  | cons x t =>
    cases t with
    | nil => simp [joinLenL]
    | cons y t' => simp [joinLenL]

theorem fieldsChAux_joinLen : ∀ (l acc : List Char),
    joinLenL (fieldsChAux l acc) ≤ acc.length + l.length := by
  intro l
  induction l with
  | nil =>
    intro acc
    unfold fieldsChAux
    by_cases hacc : acc = []
    · rw [if_pos hacc]; simp [joinLenL]
    · rw [if_neg hacc]; simp [joinLenL]
  | cons a l ih =>
    intro acc
    unfold fieldsChAux
    by_cases hsp : isGoSpace a = true
    · rw [if_pos hsp]
      by_cases hacc : acc = []
      · rw [if_pos hacc]
        have := ih []
        simp only [List.length_nil] at this
        simp only [List.length_cons]
        omega
      · rw [if_neg hacc]
        have h1 := joinLenL_cons_le acc.reverse (fieldsChAux l [])
        have h2 := ih []
        simp only [List.length_nil] at h2
        simp only [List.length_reverse] at h1
        simp only [List.length_cons]
        omega
    · rw [if_neg hsp]
      have := ih (a :: acc)
      simp only [List.length_cons] at this ⊢
      omega

/-- The recursively mapped type text of a struct field is no longer than the
field text. -/
theorem structFieldArg_length_le (f : List Char) :
    (joinSep " " (((fieldsCh (trimCh f)).drop 1).map
      (fun p => (⟨p⟩ : String)))).data.length ≤ f.length := by
  rw [joinSep_space_length]
  calc joinLenL ((fieldsCh (trimCh f)).drop 1)
      ≤ joinLenL (fieldsCh (trimCh f)) := joinLenL_drop_one _
    _ ≤ [].length + (trimCh f).length := fieldsChAux_joinLen _ []
    _ ≤ f.length := by
        simpa using trimCh_length_le f

theorem trimPrefixStr_length_le (s p : String) :
    (trimPrefixStr s p).data.length ≤ s.data.length := by
  unfold trimPrefixStr
  split
  · simp
  · exact Nat.le_refl _

theorem trimSuffixStr_length_le (s p : String) :
    (trimSuffixStr s p).data.length ≤ s.data.length := by
  unfold trimSuffixStr
  split
  · simp
  · exact Nat.le_refl _

theorem flushPart_mem {parts : List (List Char)} {buf x : List Char}
    (h : x ∈ flushPart parts buf) : x ∈ parts ∨ x.length ≤ buf.length := by
  unfold flushPart at h
  split at h
  · exact Or.inl h
  · rcases List.mem_append.mp h with h1 | h1
    · exact Or.inl h1
    · right
      simp only [List.mem_singleton] at h1
      subst h1
      exact trimCh_length_le buf

theorem splitDepthAux_mem : ∀ (l : List Char) (d : Int) (buf : List Char)
    (parts : List (List Char)) (x : List Char),
    x ∈ splitDepthAux l d buf parts → x ∈ parts ∨ x.length ≤ buf.length + l.length := by
  intro l
  induction l with
  | nil =>
    intro d buf parts x h
    unfold splitDepthAux at h
    rcases flushPart_mem h with h1 | h1
    · exact Or.inl h1
    · right; simpa using h1
  | cons r rest ih =>
    intro d buf parts x h
    unfold splitDepthAux at h
    by_cases hc : r = ',' ∧ d = 0
    · rw [if_pos hc] at h
      rcases ih _ _ _ _ h with h1 | h1
      · rcases flushPart_mem h1 with h2 | h2
        · exact Or.inl h2
        · right
          simp only [List.length_cons]
          omega
      · right
        simp only [List.length_nil, Nat.zero_add] at h1
        simp only [List.length_cons]
        omega
    · rw [if_neg hc] at h
      rcases ih _ _ _ _ h with h1 | h1
      · exact Or.inl h1
      · right
        simp only [List.length_append, List.length_cons, List.length_nil] at h1 ⊢
        omega

/-- Every parameter split off a generic shape is no longer than the input. -/
theorem SplitGenericType_param_length {s p : String}
    (h : p ∈ (SplitGenericType s).2) : p.data.length ≤ s.data.length := by
  unfold SplitGenericType at h
  cases h1 : firstIdxOf '[' s.data with
  | none => rw [h1] at h; simp at h
  | some lidx =>
    cases h2 : lastIdxOf ']' s.data with
    | none => rw [h1, h2] at h; simp at h
    | some ridx =>
      rw [h1, h2] at h
      simp only at h
      by_cases h3 : ridx ≤ lidx
      · rw [if_pos h3] at h; simp at h
      · rw [if_neg h3] at h
        by_cases h4 : (s.data.drop (lidx + 1)).take (ridx - (lidx + 1)) = []
        · rw [if_pos h4] at h
          simp only [List.mem_singleton] at h
          subst h
          simp
        · rw [if_neg h4] at h
          simp only [List.mem_map] at h
          obtain ⟨x, hx, hmk⟩ := h
          rcases splitDepthAux_mem _ _ _ _ _ hx with h5 | h5
          · simp at h5
          · have hp : p.data = x := by rw [← hmk]
            rw [hp]
            simp only [List.length_nil] at h5
            calc x.length ≤ 0 + ((s.data.drop (lidx + 1)).take (ridx - (lidx + 1))).length := h5
              _ ≤ s.data.length := by
                  simp only [Nat.zero_add, List.length_take, List.length_drop]
                  omega

/-- The largest length of an underlying expression in the alias table. -/
def aliasValBound : AliasMap → Nat
  | [] => 0
  | kv :: rest => max kv.2.data.length (aliasValBound rest)

theorem lookup_le_aliasValBound {am : AliasMap} {k v : String}
    (h : lookupStr am k = some v) : v.data.length ≤ aliasValBound am := by
  induction am with
  | nil => simp [lookupStr] at h
  | cons kv rest ih =>
    unfold lookupStr at h
    by_cases hk : kv.1 = k
    · rw [if_pos hk] at h
      have : kv.2 = v := by injection h
      unfold aliasValBound
      rw [this]
      exact le_max_left _ _
    · rw [if_neg hk] at h
      unfold aliasValBound
      exact le_trans (ih h) (le_max_right _ _)

theorem resolveKeyChainGas_length_le (am : AliasMap) :
    ∀ (gas : Nat) (vk : Finset String) (cur : String),
      (resolveKeyChainGas gas am vk cur).data.length ≤
        max cur.data.length (aliasValBound am) := by
  intro gas
  induction gas with
  | zero => intro vk cur; exact le_max_left _ _
  | succ g ih =>
    intro vk cur
    show (if cur ∈ vk then cur else _).data.length ≤ _
    by_cases hv : cur ∈ vk
    · rw [if_pos hv]; exact le_max_left _ _
    · rw [if_neg hv]
      cases hl : lookupStr am cur with
      | none => exact le_max_left _ _
      | some base =>
        simp only
        by_cases hb : base = cur
        · rw [if_pos hb]; exact le_max_left _ _
        · rw [if_neg hb]
          refine le_trans (ih _ _) ?_
          have hbase := lookup_le_aliasValBound hl
          simp only [max_le_iff]
          exact ⟨le_trans hbase (le_max_right _ _), le_max_right _ _⟩

theorem resolveKeyChain_length_le (am : AliasMap) (rawKey : String) :
    (resolveKeyChain am rawKey).data.length ≤
      max rawKey.data.length (aliasValBound am) :=
  resolveKeyChainGas_length_le am _ ∅ rawKey

/-- The termination measure: the number of strings short enough ever to be
inserted into `visited` (length at most the current expression's length or
the longest alias underlying text) that are not yet in `visited`. -/
noncomputable def measU (e : String) (am : AliasMap) (v : Visited) : Nat :=
  ({s : String | s.data.length ≤ max e.data.length (aliasValBound am)} \
    (↑v : Set String)).ncard

theorem measU_lt {e e' : String} {am : AliasMap} {v : Visited}
    (hg : trimSpace e ∉ v)
    (hlen : e'.data.length ≤ max e.data.length (aliasValBound am)) :
    measU e' am (insert (trimSpace e) v) < measU e am v := by
  classical
  set B := max e.data.length (aliasValBound am) with hB
  have hU'sub : {s : String | s.data.length ≤ max e'.data.length (aliasValBound am)} ⊆
      {s : String | s.data.length ≤ B} := by
    intro s hs
    simp only [Set.mem_setOf_eq] at hs ⊢
    refine le_trans hs ?_
    simp only [max_le_iff]
    exact ⟨hlen, le_max_right _ _⟩
  have hfin : ({s : String | s.data.length ≤ B} \ (↑v : Set String)).Finite :=
    (stringsLenLE_finite B).subset Set.diff_subset
  have hfin2 : ({s : String | s.data.length ≤ B} \
      (↑(insert (trimSpace e) v) : Set String)).Finite :=
    (stringsLenLE_finite B).subset Set.diff_subset
  have step1 : measU e' am (insert (trimSpace e) v) ≤
      ({s : String | s.data.length ≤ B} \
        (↑(insert (trimSpace e) v) : Set String)).ncard := by
    apply Set.ncard_le_ncard
    · exact Set.diff_subset_diff_left hU'sub
    · exact hfin2
  refine lt_of_le_of_lt step1 ?_
  apply Set.ncard_lt_ncard
  · constructor
    · apply Set.diff_subset_diff_right
      intro x hx
      simp only [Finset.coe_insert, Set.mem_insert_iff]
      exact Or.inr hx
    · intro hsub
      have hgmem : trimSpace e ∈ {s : String | s.data.length ≤ B} \ (↑v : Set String) := by
        constructor
        · simp only [Set.mem_setOf_eq, hB]
          exact le_trans (trimSpace_data_length_le e) (le_max_left _ _)
        · simpa using hg
      have := hsub hgmem
      simp [Set.mem_diff] at this
  · exact hfin

section AdequacyLemmas

variable {am : AliasMap} {tp : List String} {sm : StructMap} {tpm : TypeParamMapping}

theorem mapKeyTS_mono_le {fuel fuel' : Nat} (hle : fuel ≤ fuel') :
    ∀ g v r, mapKeyTS fuel g am tp sm tpm v = some r →
      mapKeyTS fuel' g am tp sm tpm v = some r := by
  induction hle with
  | refl => intro g v r h; exact h
  | step _ ih =>
    intro g v r h
    exact mapKeyTS_mono (fun e v r => goTypeToTSType_mono_succ _ e v r) _ _ _ (ih _ _ _ h)

theorem parseStructFields_mono_le {fuel fuel' : Nat} (hle : fuel ≤ fuel') :
    ∀ fs v r, parseStructFields fuel fs am tp sm tpm v = some r →
      parseStructFields fuel' fs am tp sm tpm v = some r := by
  induction hle with
  | refl => intro fs v r h; exact h
  | step _ ih =>
    intro fs v r h
    exact parseStructFields_mono (fun e v r => goTypeToTSType_mono_succ _ e v r) _ _ _ (ih _ _ _ h)

theorem mapGenericParams_mono_le {fuel fuel' : Nat} (hle : fuel ≤ fuel') :
    ∀ ps v r, mapGenericParams fuel ps am tp sm tpm v = some r →
      mapGenericParams fuel' ps am tp sm tpm v = some r := by
  induction hle with
  | refl => intro ps v r h; exact h
  | step _ ih =>
    intro ps v r h
    exact mapGenericParams_mono (fun e v r => goTypeToTSType_mono_succ _ e v r) _ _ _ (ih _ _ _ h)

/-- Convergence of a sub-run at every sufficiently short expression, at a
fixed visited set: the induction hypothesis shape of the termination
argument. -/
def Adeq (am : AliasMap) (tp : List String) (sm : StructMap)
    (tpm : TypeParamMapping) (v1 : Visited) (B : Nat) : Prop :=
  ∀ e', e'.data.length ≤ B →
    ∃ fuel r, goTypeToTSType fuel e' am tp sm tpm v1 = some r

theorem adeq_checkAliasTypes {v1 : Visited} {B : Nat}
    (HA : Adeq am tp sm tpm v1 B) (hA : aliasValBound am ≤ B) (g : String) :
    ∃ fuel r, checkAliasTypes fuel g am tp sm tpm v1 = some r := by
  cases hl : lookupStr am g with
  | none =>
    refine ⟨0, ("", v1), ?_⟩
    unfold checkAliasTypes checkAliasTypesF
    rw [hl]
    rfl
  | some base =>
    by_cases hb : base = g
    · refine ⟨0, ("any", v1), ?_⟩
      unfold checkAliasTypes checkAliasTypesF
      rw [hl]
      simp only [Option.elim]
      rw [if_pos hb]
    · obtain ⟨fuel, r, hr⟩ :=
        HA base (le_trans (lookup_le_aliasValBound hl) hA)
      refine ⟨fuel, r, ?_⟩
      unfold checkAliasTypes checkAliasTypesF
      rw [hl]
      simp only [Option.elim]
      rw [if_neg hb]
      exact hr

theorem adeq_mapKeyTS {v1 : Visited} {B : Nat}
    (HA : Adeq am tp sm tpm v1 B) (hA : aliasValBound am ≤ B) (g : String)
    (hg : g.data.length ≤ B) :
    ∃ fuel r, mapKeyTS fuel g am tp sm tpm v1 = some r := by
  by_cases h1 : strStartsWith g "struct\x7b" = true
  · exact ⟨0, ("string", v1), by unfold mapKeyTS mapKeyTSF; rw [if_pos h1]⟩
  · by_cases h2 : g ∈ intKeyNames
    · refine ⟨0, ("number", v1), ?_⟩
      unfold mapKeyTS mapKeyTSF
      rw [if_neg h1, if_pos h2]
    · have hlen : (resolveKeyChain am g).data.length ≤ B := by
        refine le_trans (resolveKeyChain_length_le am g) ?_
        simp only [max_le_iff]
        exact ⟨hg, hA⟩
      obtain ⟨fuel, r, hr⟩ := HA _ hlen
      refine ⟨fuel, ((if r.1 ≠ "string" ∧ r.1 ≠ "number" ∧ r.1 ≠ "symbol" then "string"
        else r.1), r.2), ?_⟩
      unfold mapKeyTS mapKeyTSF
      rw [if_neg h1, if_neg h2, hr, Option.map_some']

theorem adeq_parseMapType {v1 : Visited} {B : Nat}
    (HA : Adeq am tp sm tpm v1 B) (hA : aliasValBound am ≤ B) (g : String)
    (hg : g.data.length ≤ B) :
    ∃ fuel r, parseMapType fuel g am tp sm tpm v1 = some r := by
  cases hl : splitOnFirstChar ']' (g.data.drop 4) with
  | none =>
    refine ⟨0, ("any", v1), ?_⟩
    unfold parseMapType parseMapTypeF
    rw [hl]
    rfl
  | some pr =>
    have hlens := splitOnFirstChar_lengths hl
    have hdrop : (g.data.drop 4).length ≤ g.data.length := by simp
    have hkey : (trimSpace (⟨pr.1⟩ : String)).data.length ≤ B := by
      refine le_trans (trimSpace_data_length_le _) (le_trans ?_ hg)
      show pr.1.length ≤ g.data.length
      omega
    have hval : (trimSpace (⟨pr.2⟩ : String)).data.length ≤ B := by
      refine le_trans (trimSpace_data_length_le _) (le_trans ?_ hg)
      show pr.2.length ≤ g.data.length
      omega
    obtain ⟨f1, kp, hkp⟩ := adeq_mapKeyTS HA hA _ hkey
    have hkp2 : kp.2 = v1 :=
      mapKeyTS_frame (fun e v s v' => goTypeToTSType_frame f1 e v s v') _ _ _ _
        (by rw [hkp])
    obtain ⟨f2, vp, hvp⟩ := HA _ hval
    have hkp3 : mapKeyTSF (goTypeToTSType (max f1 f2)) (trimSpace (⟨pr.1⟩ : String))
        am tp sm tpm v1 = some kp := mapKeyTS_mono_le (le_max_left f1 f2) _ _ _ hkp
    exact ⟨max f1 f2, _, by
      unfold parseMapType parseMapTypeF
      rw [hl]
      simp only [Option.elim]
      rw [hkp3, Option.some_bind, hkp2,
        goTypeToTSType_mono_le (le_max_right f1 f2) _ _ _ hvp, Option.map_some']⟩

theorem adeq_parseStructFields {v1 : Visited} {B : Nat}
    (HA : Adeq am tp sm tpm v1 B) :
    ∀ fs : List (List Char), (∀ f ∈ fs, f.length ≤ B) →
      ∃ fuel r, parseStructFields fuel fs am tp sm tpm v1 = some r := by
  intro fs
  induction fs with
  | nil => exact fun _ => ⟨0, ([], v1), rfl⟩
  | cons f rest ih =>
    intro hall
    have hf : f.length ≤ B := hall f (List.mem_cons_self _ _)
    have hrest : ∀ x ∈ rest, x.length ≤ B :=
      fun x hx => hall x (List.mem_cons_of_mem _ hx)
    obtain ⟨f2, q, hq⟩ := ih hrest
    by_cases h1 : trimCh f = []
    · refine ⟨f2, q, ?_⟩
      unfold parseStructFields parseStructFieldsF
      rw [if_pos h1]
      exact hq
    · by_cases h2 : 2 ≤ (fieldsCh (trimCh f)).length
      · have harg : (joinSep " " (((fieldsCh (trimCh f)).drop 1).map
            (fun p => (⟨p⟩ : String)))).data.length ≤ B :=
          le_trans (structFieldArg_length_le f) hf
        obtain ⟨f1, p, hp⟩ := HA _ harg
        have hp2 : p.2 = v1 := goTypeToTSType_frame f1 _ _ _ _ hp
        have hq3 : parseStructFieldsF (goTypeToTSType (max f1 f2)) rest am tp sm tpm v1 =
            some q := parseStructFields_mono_le (le_max_right f1 f2) _ _ _ hq
        exact ⟨max f1 f2, _, by
          unfold parseStructFields parseStructFieldsF
          rw [if_neg h1, if_pos h2]
          rw [goTypeToTSType_mono_le (le_max_left f1 f2) _ _ _ hp, Option.some_bind, hp2,
            hq3, Option.map_some']⟩
      · have hq3 : parseStructFieldsF (goTypeToTSType f2) rest am tp sm tpm v1 =
            some q := hq
        exact ⟨f2, _, by
          unfold parseStructFields parseStructFieldsF
          rw [if_neg h1, if_neg h2]
          rw [hq3, Option.map_some']⟩

theorem adeq_ParseStructType {v1 : Visited} {B : Nat}
    (HA : Adeq am tp sm tpm v1 B) (g : String) (hg : g.data.length ≤ B) :
    ∃ fuel r, ParseStructType fuel g am tp sm tpm v1 = some r := by
  have hall : ∀ f ∈ splitOnChar ';'
      (trimSuffixStr (trimPrefixStr g "struct\x7b") "\x7d").data, f.length ≤ B := by
    intro f hf
    refine le_trans (splitOnChar_mem_length hf) (le_trans ?_ hg)
    exact le_trans (trimSuffixStr_length_le _ _) (trimPrefixStr_length_le _ _)
  obtain ⟨fuel, p, hp⟩ := adeq_parseStructFields HA _ hall
  have hp3 : parseStructFieldsF (goTypeToTSType fuel)
      (splitOnChar ';' (trimSuffixStr (trimPrefixStr g "struct\x7b") "\x7d").data)
      am tp sm tpm v1 = some p := hp
  exact ⟨fuel, _, by
    unfold ParseStructType ParseStructTypeF
    rw [hp3, Option.map_some']⟩

theorem adeq_mapGenericParams {v1 : Visited} {B : Nat}
    (HA : Adeq am tp sm tpm v1 B) :
    ∀ ps : List String, (∀ p ∈ ps, p.data.length ≤ B) →
      ∃ fuel r, mapGenericParams fuel ps am tp sm tpm v1 = some r := by
  intro ps
  induction ps with
  | nil => exact fun _ => ⟨0, ([], v1), rfl⟩
  | cons p rest ih =>
    intro hall
    obtain ⟨f1, a, ha⟩ := HA p (hall p (List.mem_cons_self _ _))
    have ha2 : a.2 = v1 := goTypeToTSType_frame f1 _ _ _ _ ha
    obtain ⟨f2, b, hb⟩ := ih (fun x hx => hall x (List.mem_cons_of_mem _ hx))
    have hb3 : mapGenericParamsF (goTypeToTSType (max f1 f2)) rest am tp sm tpm v1 =
        some b := mapGenericParams_mono_le (le_max_right f1 f2) _ _ _ hb
    exact ⟨max f1 f2, _, by
      unfold mapGenericParams mapGenericParamsF
      rw [goTypeToTSType_mono_le (le_max_left f1 f2) _ _ _ ha, Option.some_bind, ha2,
        hb3, Option.map_some']⟩

theorem adeq_CheckGenericPatterns {v1 : Visited} {B : Nat}
    (HA : Adeq am tp sm tpm v1 B) (hA : aliasValBound am ≤ B) (g : String)
    (hg : g.data.length ≤ B) :
    ∃ fuel r, CheckGenericPatterns fuel g am tp sm tpm v1 = some r := by
  have hall : ∀ p ∈ (SplitGenericType g).2, p.data.length ≤ B :=
    fun p hp => le_trans (SplitGenericType_param_length hp) hg
  obtain ⟨f1, pr, hpr⟩ := adeq_mapGenericParams HA _ hall
  have hpr2 : pr.2 = v1 :=
    mapGenericParams_frame (fun e v s v' => goTypeToTSType_frame f1 e v s v') _ _ _ _
      (by rw [hpr])
  cases hl : lookupStr am (SplitGenericType g).1 with
  | none =>
    have hpr3 : mapGenericParamsF (goTypeToTSType f1) (SplitGenericType g).2
        am tp sm tpm v1 = some pr := hpr
    exact ⟨f1, _, by
      unfold CheckGenericPatterns CheckGenericPatternsF
      rw [hpr3, Option.some_bind, hl]
      rfl⟩
  | some baseAlias =>
    by_cases hb : baseAlias ≠ (SplitGenericType g).1
    · obtain ⟨f2, b, hbb⟩ := HA baseAlias (le_trans (lookup_le_aliasValBound hl) hA)
      have hpr3 : mapGenericParamsF (goTypeToTSType (max f1 f2)) (SplitGenericType g).2
          am tp sm tpm v1 = some pr := mapGenericParams_mono_le (le_max_left f1 f2) _ _ _ hpr
      exact ⟨max f1 f2, _, by
        unfold CheckGenericPatterns CheckGenericPatternsF
        rw [hpr3, Option.some_bind, hl]
        simp only [Option.elim]
        rw [if_pos hb, hpr2,
          goTypeToTSType_mono_le (le_max_right f1 f2) _ _ _ hbb, Option.map_some']⟩
    · have hpr3 : mapGenericParamsF (goTypeToTSType f1) (SplitGenericType g).2
          am tp sm tpm v1 = some pr := hpr
      exact ⟨f1, _, by
        unfold CheckGenericPatterns CheckGenericPatternsF
        rw [hpr3, Option.some_bind, hl]
        simp only [Option.elim]
        rw [if_neg hb]⟩

end AdequacyLemmas

section Termination

variable {am : AliasMap} {tp : List String} {sm : StructMap} {tpm : TypeParamMapping}

theorem adeq_trimmed {v : Visited} {B : Nat} (g : String)
    (hgv : g ∉ v)
    (HA : Adeq am tp sm tpm (insert g v) B)
    (hA : aliasValBound am ≤ B) (hg : g.data.length ≤ B) :
    ∃ fuel r, goTypeToTSTypeTrimmedF (goTypeToTSType fuel) g am tp sm tpm v = some r := by
  cases hlp : lookupStr tpm g with
  | some mapped =>
    exact ⟨0, _, by
      unfold goTypeToTSTypeTrimmedF
      rw [if_neg hgv, hlp]
      rfl⟩
  | none =>
    by_cases h2 : g = ""
    · exact ⟨0, _, by
        unfold goTypeToTSTypeTrimmedF
        rw [if_neg hgv, hlp]
        simp only [Option.elim]
        rw [if_pos h2]⟩
    · by_cases h3 : checkSpecialCases g ≠ ""
      · exact ⟨0, _, by
          unfold goTypeToTSTypeTrimmedF
          rw [if_neg hgv, hlp]
          simp only [Option.elim]
          rw [if_neg h2, if_pos h3]⟩
      · by_cases h4 : g ∈ tp
        · exact ⟨0, _, by
            unfold goTypeToTSTypeTrimmedF
            rw [if_neg hgv, hlp]
            simp only [Option.elim]
            rw [if_neg h2, if_neg h3, if_pos h4]⟩
        · by_cases h5 : strStartsWith g "*" = true
          · obtain ⟨f, p, hp⟩ := HA (strDrop g 1) (le_trans (by simp [strDrop]) hg)
            exact ⟨f, _, by
              unfold goTypeToTSTypeTrimmedF
              rw [if_neg hgv, hlp]
              simp only [Option.elim]
              rw [if_neg h2, if_neg h3, if_neg h4, if_pos h5, hp, Option.map_some']⟩
          · by_cases h6 : strStartsWith g "[]" = true
            · obtain ⟨f, p, hp⟩ := HA (strDrop g 2) (le_trans (by simp [strDrop]) hg)
              exact ⟨f, _, by
                unfold goTypeToTSTypeTrimmedF
                rw [if_neg hgv, hlp]
                simp only [Option.elim]
                rw [if_neg h2, if_neg h3, if_neg h4, if_neg h5, if_pos h6, hp,
                  Option.map_some']⟩
            · by_cases h7 : strStartsWith g "map[" = true
              · obtain ⟨f, p, hp⟩ := adeq_parseMapType HA hA g hg
                have hp2 : parseMapTypeF (goTypeToTSType f) g am tp sm tpm
                    (insert g v) = some p := hp
                exact ⟨f, _, by
                  unfold goTypeToTSTypeTrimmedF
                  rw [if_neg hgv, hlp]
                  simp only [Option.elim]
                  rw [if_neg h2, if_neg h3, if_neg h4, if_neg h5, if_neg h6, if_pos h7,
                    hp2, Option.map_some']⟩
              · by_cases h8 : strStartsWith g "struct\x7b" = true
                · obtain ⟨f, p, hp⟩ := adeq_ParseStructType HA g hg
                  have hp2 : ParseStructTypeF (goTypeToTSType f) g am tp sm tpm
                      (insert g v) = some p := hp
                  exact ⟨f, _, by
                    unfold goTypeToTSTypeTrimmedF
                    rw [if_neg hgv, hlp]
                    simp only [Option.elim]
                    rw [if_neg h2, if_neg h3, if_neg h4, if_neg h5, if_neg h6, if_neg h7,
                      if_pos h8, hp2, Option.map_some']⟩
                · by_cases h9 : genericShapeMatch g = true
                  · obtain ⟨f, p, hp⟩ := adeq_CheckGenericPatterns HA hA g hg
                    have hp2 : CheckGenericPatternsF (goTypeToTSType f) g am tp sm tpm
                        (insert g v) = some p := hp
                    exact ⟨f, _, by
                      unfold goTypeToTSTypeTrimmedF
                      rw [if_neg hgv, hlp]
                      simp only [Option.elim]
                      rw [if_neg h2, if_neg h3, if_neg h4, if_neg h5, if_neg h6, if_neg h7,
                        if_neg h8, if_pos h9, hp2, Option.map_some']⟩
                  · obtain ⟨f, p, hp⟩ := adeq_checkAliasTypes HA hA g
                    have hp2 : checkAliasTypesF (goTypeToTSType f) g am tp sm tpm
                        (insert g v) = some p := hp
                    exact ⟨f, _, by
                      unfold goTypeToTSTypeTrimmedF
                      rw [if_neg hgv, hlp]
                      simp only [Option.elim]
                      rw [if_neg h2, if_neg h3, if_neg h4, if_neg h5, if_neg h6, if_neg h7,
                        if_neg h8, if_neg h9, hp2, Option.map_some']⟩

/-- Totality: for every expression, alias table, generic-parameter context,
struct table, substitution and visited set, some finite fuel makes the
translator return. -/
theorem goTypeToTSType_total (e : String) (am : AliasMap) (tp : List String)
    (sm : StructMap) (tpm : TypeParamMapping) (v : Visited) :
    ∃ fuel r, goTypeToTSType fuel e am tp sm tpm v = some r := by
  generalize hn : measU e am v = n
  induction n using Nat.strong_induction_on generalizing e v with
  | _ n ih =>
    by_cases hgv : trimSpace e ∈ v
    · refine ⟨1, ("any", v), ?_⟩
      rw [goTypeToTSType]
      unfold goTypeToTSTypeTrimmedF
      rw [if_pos hgv]
    · have HA : Adeq am tp sm tpm (insert (trimSpace e) v)
          (max e.data.length (aliasValBound am)) := by
        intro e' hlen
        exact ih (measU e' am (insert (trimSpace e) v)) (hn ▸ measU_lt hgv hlen)
          e' (insert (trimSpace e) v) rfl
      obtain ⟨f, r, hr⟩ := adeq_trimmed (trimSpace e) hgv HA (le_max_right _ _)
        (le_trans (trimSpace_data_length_le e) (le_max_left _ _))
      refine ⟨f + 1, r, ?_⟩
      rw [goTypeToTSType]
      exact hr

end Termination

theorem str_ext_ne {a : String} (h : a.data ≠ []) : a ≠ "" := by
  intro hab
  rw [hab] at h
  exact h rfl

theorem append_ne_empty_right (a b : String) (hb : b ≠ "") : a ++ b ≠ "" := by
  apply str_ext_ne
  rw [str_data_append]
  intro hnil
  rcases List.append_eq_nil.mp hnil with ⟨_, h2⟩
  exact hb (by cases b; simp_all)

theorem append_ne_empty_left (a b : String) (ha : a ≠ "") : a ++ b ≠ "" := by
  apply str_ext_ne
  rw [str_data_append]
  intro hnil
  rcases List.append_eq_nil.mp hnil with ⟨h1, _⟩
  exact ha (by cases a; simp_all)

theorem lookupStr_mem_pair {α : Type} :
    ∀ {l : List (String × α)} {key : String} {val : α},
      lookupStr l key = some val → (key, val) ∈ l := by
  intro l
  induction l with
  | nil => intro key val h; simp [lookupStr] at h
  | cons kv rest ih =>
    intro key val h
    unfold lookupStr at h
    by_cases hk : kv.1 = key
    · have : kv.2 = val := by rw [if_pos hk] at h; injection h
      have hkv : kv = (key, val) := by
        obtain ⟨a, b⟩ := kv
        simp only at hk this
        rw [hk, this]
      rw [← hkv]
      exact List.mem_cons_self _ _
    · rw [if_neg hk] at h
      exact List.mem_cons_of_mem _ (ih h)

theorem parseMapTypeF_ne {go : GoFun} {g : String} {am : AliasMap}
    {tp : List String} {sm : StructMap} {tpm : TypeParamMapping} {v : Visited}
    {s : String} {v' : Visited}
    (h : parseMapTypeF go g am tp sm tpm v = some (s, v')) : s ≠ "" := by
  unfold parseMapTypeF at h
  cases hl : splitOnFirstChar ']' (g.data.drop 4) with
  | none =>
    rw [hl] at h
    simp only [Option.elim, Option.some.injEq, Prod.mk.injEq] at h
    rw [← h.1]
    decide
  | some pr =>
    rw [hl] at h
    simp only [Option.elim] at h
    rw [Option.bind_eq_some] at h
    obtain ⟨kp, _, hf⟩ := h
    rw [Option.map_eq_some'] at hf
    obtain ⟨vp, _, hg⟩ := hf
    have hs : ("\x7b [key: " ++ kp.1 ++ "]: " ++
        (if strContainsChar vp.1 '|' ∧ ¬ strEndsWith vp.1 "[]" ∧
            ¬ strStartsWith vp.1 "(" then "(" ++ vp.1 ++ ")" else vp.1) ++
        " \x7d") = s := congrArg Prod.fst hg
    rw [← hs]
    exact append_ne_empty_right _ _ (by decide)

theorem ParseStructTypeF_ne {go : GoFun} {g : String} {am : AliasMap}
    {tp : List String} {sm : StructMap} {tpm : TypeParamMapping} {v : Visited}
    {s : String} {v' : Visited}
    (h : ParseStructTypeF go g am tp sm tpm v = some (s, v')) : s ≠ "" := by
  unfold ParseStructTypeF at h
  rw [Option.map_eq_some'] at h
  obtain ⟨p, _, hg⟩ := h
  have hs : ("\x7b " ++ joinSep "; " p.1 ++ " \x7d") = s := congrArg Prod.fst hg
  rw [← hs]
  exact append_ne_empty_right _ _ (by decide)

theorem CheckGenericPatternsF_ne {go : GoFun} {g : String} {am : AliasMap}
    {tp : List String} {sm : StructMap} {tpm : TypeParamMapping} {v : Visited}
    {s : String} {v' : Visited}
    (h : CheckGenericPatternsF go g am tp sm tpm v = some (s, v')) : s ≠ "" := by
  unfold CheckGenericPatternsF at h
  rw [Option.bind_eq_some] at h
  obtain ⟨pr, _, hf⟩ := h
  cases hl : lookupStr am (SplitGenericType g).1 with
  | none =>
    rw [hl] at hf
    simp only [Option.elim, Option.some.injEq, Prod.mk.injEq] at hf
    rw [← hf.1]
    exact append_ne_empty_right _ _ (by decide)
  | some baseAlias =>
    rw [hl] at hf
    simp only [Option.elim] at hf
    by_cases hb : baseAlias ≠ (SplitGenericType g).1
    · rw [if_pos hb] at hf
      rw [Option.map_eq_some'] at hf
      obtain ⟨b, _, hg2⟩ := hf
      have hs : (b.1 ++ "<" ++ joinSep ", " pr.1 ++ ">") = s := congrArg Prod.fst hg2
      rw [← hs]
      exact append_ne_empty_right _ _ (by decide)
    · rw [if_neg hb] at hf
      simp only [Option.some.injEq, Prod.mk.injEq] at hf
      rw [← hf.1]
      exact append_ne_empty_right _ _ (by decide)

theorem checkBasicTypes_ne (g : String) :
    checkBasicTypes g ≠ g → checkBasicTypes g ≠ "" := by
  intro h
  unfold checkBasicTypes at h ⊢
  by_cases c0 : g = "string"
  · rw [if_pos c0]; decide
  · rw [if_neg c0] at h ⊢
    by_cases c1 : g ∈ numberNames
    · rw [if_pos c1]; decide
    · rw [if_neg c1] at h ⊢
      by_cases c2 : g = "bool"
      · rw [if_pos c2]; decide
      · rw [if_neg c2] at h ⊢
        by_cases c3 : g = "time.Time"
        · rw [if_pos c3]; decide
        · rw [if_neg c3] at h ⊢
          by_cases c4 : g = "url.URL"
          · rw [if_pos c4]; decide
          · rw [if_neg c4] at h ⊢
            by_cases c5 : g = "interface\x7b\x7d" ∨ g = "*interface\x7b\x7d" ∨ g = "interface \x7b\x7d" ∨ g = "*interface \x7b\x7d"
            · rw [if_pos c5]; decide
            · rw [if_neg c5] at h ⊢
              by_cases c6 : g = "complex64" ∨ g = "complex128"
              · rw [if_pos c6]; decide
              · rw [if_neg c6] at h ⊢
                by_cases c7 : g = "decimal.Decimal" ∨ g = "primitive.ObjectID" ∨ g = "primitive.Decimal128" ∨ g = "uuid.UUID" ∨ g = "pgtype.UUID"
                · rw [if_pos c7]; decide
                · rw [if_neg c7] at h ⊢
                  by_cases c8 : g = "sql.NullString"
                  · rw [if_pos c8]; decide
                  · rw [if_neg c8] at h ⊢
                    by_cases c9 : g = "sql.NullInt64"
                    · rw [if_pos c9]; decide
                    · rw [if_neg c9] at h ⊢
                      by_cases c10 : g = "pq.NullTime"
                      · rw [if_pos c10]; decide
                      · rw [if_neg c10] at h ⊢
                        by_cases c11 : g = "sql.NullBool"
                        · rw [if_pos c11]; decide
                        · rw [if_neg c11] at h ⊢
                          by_cases c12 : g = "unsafe.Pointer"
                          · rw [if_pos c12]; decide
                          · rw [if_neg c12] at h ⊢
                            by_cases c13 : g = "error"
                            · rw [if_pos c13]; decide
                            · rw [if_neg c13] at h ⊢
                              exact absurd rfl h

/-- A successful run on a non-blank expression, with no blank generic
substitution text, returns non-empty text. -/
theorem goTypeToTSTypeTrimmedF_ne {go : GoFun} {g : String} {am : AliasMap}
    {tp : List String} {sm : StructMap} {tpm : TypeParamMapping} {v : Visited}
    {s : String} {v' : Visited}
    (h : goTypeToTSTypeTrimmedF go g am tp sm tpm v = some (s, v'))
    (hge : g ≠ "") (htpm : ∀ kv ∈ tpm, kv.2 ≠ "") : s ≠ "" := by
  unfold goTypeToTSTypeTrimmedF at h
  by_cases h1 : g ∈ v
  · rw [if_pos h1] at h
    simp only [Option.some.injEq, Prod.mk.injEq] at h
    rw [← h.1]
    decide
  · rw [if_neg h1] at h
    cases hl : lookupStr tpm g with
    | some mapped =>
      rw [hl] at h
      simp only [Option.elim, Option.some.injEq, Prod.mk.injEq] at h
      rw [← h.1]
      exact htpm _ (lookupStr_mem_pair hl)
    | none =>
      rw [hl] at h
      simp only [Option.elim] at h
      rw [if_neg hge] at h
      by_cases h3 : checkSpecialCases g ≠ ""
      · rw [if_pos h3] at h
        simp only [Option.some.injEq, Prod.mk.injEq] at h
        rw [← h.1]
        exact h3
      · rw [if_neg h3] at h
        by_cases h4 : g ∈ tp
        · rw [if_pos h4] at h
          simp only [Option.some.injEq, Prod.mk.injEq] at h
          rw [← h.1]
          exact hge
        · rw [if_neg h4] at h
          by_cases h5 : strStartsWith g "*" = true
          · rw [if_pos h5] at h
            rw [Option.map_eq_some'] at h
            obtain ⟨p, _, hf⟩ := h
            have hs : p.1 ++ " | null" = s := congrArg Prod.fst hf
            rw [← hs]
            exact append_ne_empty_right _ _ (by decide)
          · rw [if_neg h5] at h
            by_cases h6 : strStartsWith g "[]" = true
            · rw [if_pos h6] at h
              rw [Option.map_eq_some'] at h
              obtain ⟨p, _, hf⟩ := h
              have hs : ((if strStartsWith p.1 "\x7b [key:" ∧ ¬ strStartsWith p.1 "(" then
                  "(" ++ p.1 ++ ")" else p.1) ++ "[]") = s := congrArg Prod.fst hf
              rw [← hs]
              exact append_ne_empty_right _ _ (by decide)
            · rw [if_neg h6] at h
              by_cases h7 : strStartsWith g "map[" = true
              · rw [if_pos h7] at h
                rw [Option.map_eq_some'] at h
                obtain ⟨p, hp, hf⟩ := h
                have hs : p.1 = s := congrArg Prod.fst hf
                rw [← hs]
                exact parseMapTypeF_ne (by rw [hp])
              · rw [if_neg h7] at h
                by_cases h8 : strStartsWith g "struct\x7b" = true
                · rw [if_pos h8] at h
                  rw [Option.map_eq_some'] at h
                  obtain ⟨p, hp, hf⟩ := h
                  have hs : p.1 = s := congrArg Prod.fst hf
                  rw [← hs]
                  exact ParseStructTypeF_ne (by rw [hp])
                · rw [if_neg h8] at h
                  by_cases h9 : genericShapeMatch g = true
                  · rw [if_pos h9] at h
                    rw [Option.map_eq_some'] at h
                    obtain ⟨p, hp, hf⟩ := h
                    have hs : p.1 = s := congrArg Prod.fst hf
                    rw [← hs]
                    exact CheckGenericPatternsF_ne (by rw [hp])
                  · rw [if_neg h9] at h
                    rw [Option.map_eq_some'] at h
                    obtain ⟨p, hp, hf⟩ := h
                    have hs : (if p.1 ≠ "" then p.1
                        else if checkBasicTypes g ≠ g then checkBasicTypes g
                        else if checkComplexTypes g ≠ "" then checkComplexTypes g
                        else if IsAliasName g then
                          (if IsUserDefinedStruct g sm then g else g)
                        else g) = s := congrArg Prod.fst hf
                    rw [← hs]
                    by_cases hp1 : p.1 ≠ ""
                    · rw [if_pos hp1]; exact hp1
                    · rw [if_neg hp1]
                      by_cases hcb : checkBasicTypes g ≠ g
                      · rw [if_pos hcb]
                        exact checkBasicTypes_ne g hcb
                      · rw [if_neg hcb]
                        by_cases hcx : checkComplexTypes g ≠ ""
                        · rw [if_pos hcx]; exact hcx
                        · rw [if_neg hcx]
                          by_cases hia : IsAliasName g = true
                          · rw [if_pos hia]
                            by_cases hud : IsUserDefinedStruct g sm = true
                            · rw [if_pos hud]; exact hge
                            · rw [if_neg hud]; exact hge
                          · rw [if_neg hia]; exact hge

theorem dropWhile_append_char (p : Char → Bool) (x y : List Char) :
    (x ++ y).dropWhile p =
      if (x.dropWhile p).isEmpty then y.dropWhile p else x.dropWhile p ++ y := by
  induction x with
  | nil => simp
  | cons a x ih =>
    by_cases hp : p a
    · simp only [List.cons_append, List.dropWhile_cons_of_pos hp]
      exact ih
    · simp [List.cons_append, List.dropWhile_cons_of_neg hp, hp, List.isEmpty]

theorem rdropWhile_cons_of_neg (p : Char → Bool) (a : Char) (l : List Char)
    (ha : ¬ p a) :
    List.rdropWhile p (a :: l) = a :: List.rdropWhile p l := by
  unfold List.rdropWhile
  rw [show (a :: l).reverse = l.reverse ++ [a] by simp]
  rw [dropWhile_append_char]
  by_cases he : (l.reverse.dropWhile p).isEmpty
  · rw [if_pos he]
    have : l.reverse.dropWhile p = [] := by
      cases h : l.reverse.dropWhile p
      · rfl
      · rw [h] at he; simp [List.isEmpty] at he
    rw [this]
    simp [List.dropWhile_cons_of_neg ha, List.dropWhile_nil]
  · rw [if_neg he]
    simp

theorem rdropWhile_append_of_ne (p : Char → Bool) (x y : List Char)
    (hy : List.rdropWhile p y ≠ []) :
    List.rdropWhile p (x ++ y) = x ++ List.rdropWhile p y := by
  unfold List.rdropWhile at *
  rw [List.reverse_append, dropWhile_append_char]
  by_cases he : (y.reverse.dropWhile p).isEmpty
  · exfalso
    apply hy
    cases h : y.reverse.dropWhile p
    · rfl
    · rw [h] at he; simp [List.isEmpty] at he
  · rw [if_neg he]
    simp

theorem trimCh_rdropWhile (l : List Char) :
    trimCh (List.rdropWhile isGoSpace l) = trimCh l := by
  rw [trimCh_eq_rdrop, trimCh_eq_rdrop]
  cases hD : l.dropWhile isGoSpace with
  | nil =>
    have hall : ∀ x ∈ l, isGoSpace x = true := by
      have := List.dropWhile_eq_nil_iff.mp hD
      intro x hx
      exact this x hx
    have hR : List.rdropWhile isGoSpace l = [] := List.rdropWhile_eq_nil_iff.mpr hall
    rw [hR]
    simp [List.dropWhile_nil, List.rdropWhile_nil]
  | cons b m =>
    have hb : isGoSpace b = false := dropWhile_head_not hD
    have hbn : ¬ isGoSpace b = true := by simp [hb]
    have hsplit : l = l.takeWhile isGoSpace ++ (b :: m) := by
      rw [← hD, List.takeWhile_append_dropWhile]
    have hRbm : List.rdropWhile isGoSpace (b :: m) ≠ [] := by
      intro hnil
      have h1 := List.rdropWhile_eq_nil_iff.mp hnil
      have h2 := h1 b (List.mem_cons_self _ _)
      rw [hb] at h2
      exact Bool.noConfusion h2
    have hRl : List.rdropWhile isGoSpace l =
        l.takeWhile isGoSpace ++ List.rdropWhile isGoSpace (b :: m) := by
      conv_lhs => rw [hsplit]
      exact rdropWhile_append_of_ne _ _ _ hRbm
    have hRcons : List.rdropWhile isGoSpace (b :: m) =
        b :: List.rdropWhile isGoSpace m := rdropWhile_cons_of_neg _ _ _ hbn
    have htake : ((l.takeWhile isGoSpace).dropWhile isGoSpace).isEmpty = true := by
      have hall : ∀ x ∈ l.takeWhile isGoSpace, isGoSpace x = true :=
        fun x hx => List.mem_takeWhile_imp hx
      have hthis : (l.takeWhile isGoSpace).dropWhile isGoSpace = [] :=
        List.dropWhile_eq_nil_iff.mpr hall
      rw [hthis]
      rfl
  -- left-hand side
    have hLHS : (List.rdropWhile isGoSpace l).dropWhile isGoSpace =
        b :: List.rdropWhile isGoSpace m := by
      rw [hRl, dropWhile_append_char, if_pos htake, hRcons,
        List.dropWhile_cons_of_neg hbn]
    rw [hLHS, hRcons]
    rw [rdropWhile_cons_of_neg _ _ _ hbn, List.rdropWhile_idempotent]

/-- Trimming depends only on the trimmed text: two expressions with equal
trims map identically. -/
theorem goTypeToTSType_trim_congr {a b : String}
    (h : trimSpace a = trimSpace b) (fuel : Nat) (am : AliasMap)
    (tp : List String) (sm : StructMap) (tpm : TypeParamMapping) (v : Visited) :
    goTypeToTSType fuel a am tp sm tpm v = goTypeToTSType fuel b am tp sm tpm v := by
  cases fuel with
  | zero => rfl
  | succ n => rw [goTypeToTSType, goTypeToTSType, h]

theorem trimSpace_star (T : String) :
    trimSpace ("*" ++ T) = "*" ++ (⟨List.rdropWhile isGoSpace T.data⟩ : String) := by
  show (⟨trimCh (('*' :: T.data : List Char))⟩ : String) = _
  rw [trimCh_eq_rdrop]
  rw [List.dropWhile_cons_of_neg (by decide)]
  rw [rdropWhile_cons_of_neg _ _ _ (by decide)]
  rfl

theorem trimSpace_rdrop (T : String) :
    trimSpace (⟨List.rdropWhile isGoSpace T.data⟩ : String) = trimSpace T := by
  show (⟨trimCh (List.rdropWhile isGoSpace T.data)⟩ : String) = ⟨trimCh T.data⟩
  rw [trimCh_rdropWhile]

section BranchLemmas

variable {am : AliasMap} {tp : List String} {sm : StructMap} {tpm : TypeParamMapping}

theorem star_data (T : String) :
    (trimSpace ("*" ++ T)).data = '*' :: List.rdropWhile isGoSpace T.data := by
  rw [trimSpace_star]
  rfl

/-- The pointer branch: a `*`-prefixed expression that is not already
visited, not substituted, not an enclosing generic parameter and not one of
the two literal pointer special cases is mapped by mapping the remainder
(with the trimmed expression marked visited) and appending ` | null`. -/
theorem pointer_branch (T : String) (fuel : Nat) (v : Visited)
    (h1 : trimSpace ("*" ++ T) ∉ v)
    (h2 : lookupStr tpm (trimSpace ("*" ++ T)) = none)
    (h3 : trimSpace ("*" ++ T) ∉ tp)
    (h4 : trimSpace ("*" ++ T) ≠ "*time.Time")
    (h5 : trimSpace ("*" ++ T) ≠ "*url.URL") :
    goTypeToTSType (fuel + 1) ("*" ++ T) am tp sm tpm v =
      (goTypeToTSType fuel T am tp sm tpm (insert (trimSpace ("*" ++ T)) v)).map
        (fun p => (p.1 ++ " | null", p.2.erase (trimSpace ("*" ++ T)))) := by
  have hgdata := star_data T
  have htrim : trimSpace ("*" ++ T) = trimSpace ("*" ++ T) := rfl
  rw [goTypeToTSType]
  unfold goTypeToTSTypeTrimmedF
  rw [if_neg h1, h2]
  simp only [Option.elim]
  have hne : trimSpace ("*" ++ T) ≠ "" := by
    intro h
    rw [h] at hgdata
    exact List.noConfusion hgdata
  rw [if_neg hne]
  have hspecial : checkSpecialCases (trimSpace ("*" ++ T)) = "" := by
    unfold checkSpecialCases
    rw [if_neg (fun h => by rw [h] at hgdata; simp at hgdata)]
    rw [if_neg (fun h => by rw [h] at hgdata; simp at hgdata)]
    rw [if_neg (fun h => by rw [h] at hgdata; simp at hgdata)]
    rw [if_neg (fun h => Or.elim h (fun h4' => h4 h4') (fun h5' => h5 h5'))]
  rw [if_neg (by simp [hspecial])]
  rw [if_neg h3]
  have hstar : strStartsWith (trimSpace ("*" ++ T)) "*" = true := by
    unfold strStartsWith
    rw [hgdata]
    simp [listStartsWith]
  rw [if_pos hstar]
  have hdrop : strDrop (trimSpace ("*" ++ T)) 1 =
      (⟨List.rdropWhile isGoSpace T.data⟩ : String) := by
    unfold strDrop
    rw [hgdata]
    rfl
  rw [hdrop, goTypeToTSType_trim_congr (trimSpace_rdrop T) fuel am tp sm tpm _]

theorem sliceopen_data (X : String) :
    (trimSpace ("[]" ++ X)).data = '[' :: ']' :: List.rdropWhile isGoSpace X.data := by
  show trimCh ('[' :: ']' :: X.data) = _
  rw [trimCh_eq_rdrop]
  rw [List.dropWhile_cons_of_neg (by decide)]
  rw [rdropWhile_cons_of_neg _ _ _ (by decide), rdropWhile_cons_of_neg _ _ _ (by decide)]

/-- The slice branch: a `[]`-prefixed expression other than `[]byte` that is
not visited, not substituted and not an enclosing generic parameter is
mapped by mapping the element (with the trimmed expression marked visited),
parenthesising the element exactly when it starts with the index-signature
marker and is not already parenthesised, and appending `[]`. -/
theorem slice_branch (X : String) (fuel : Nat) (v : Visited)
    (h1 : trimSpace ("[]" ++ X) ∉ v)
    (h2 : lookupStr tpm (trimSpace ("[]" ++ X)) = none)
    (h3 : trimSpace ("[]" ++ X) ∉ tp)
    (h4 : trimSpace ("[]" ++ X) ≠ "[]byte") :
    goTypeToTSType (fuel + 1) ("[]" ++ X) am tp sm tpm v =
      (goTypeToTSType fuel X am tp sm tpm (insert (trimSpace ("[]" ++ X)) v)).map
        (fun p =>
          ((if strStartsWith p.1 "\x7b [key:" ∧ ¬ strStartsWith p.1 "(" then
              "(" ++ p.1 ++ ")"
            else p.1) ++ "[]", p.2.erase (trimSpace ("[]" ++ X)))) := by
  have hgdata := sliceopen_data X
  rw [goTypeToTSType]
  unfold goTypeToTSTypeTrimmedF
  rw [if_neg h1, h2]
  simp only [Option.elim]
  have hne : trimSpace ("[]" ++ X) ≠ "" := by
    intro h
    rw [h] at hgdata
    exact List.noConfusion hgdata
  rw [if_neg hne]
  have hspecial : checkSpecialCases (trimSpace ("[]" ++ X)) = "" := by
    unfold checkSpecialCases
    rw [if_neg h4]
    rw [if_neg (fun h => by rw [h] at hgdata; simp at hgdata)]
    rw [if_neg (fun h => by rw [h] at hgdata; simp at hgdata)]
    rw [if_neg (fun h => Or.elim h
      (fun h' => by rw [h'] at hgdata; simp at hgdata)
      (fun h' => by rw [h'] at hgdata; simp at hgdata))]
  rw [if_neg (by simp [hspecial])]
  rw [if_neg h3]
  have hnostar : ¬ strStartsWith (trimSpace ("[]" ++ X)) "*" = true := by
    unfold strStartsWith
    rw [hgdata]
    simp [listStartsWith]
  rw [if_neg hnostar]
  have hslice : strStartsWith (trimSpace ("[]" ++ X)) "[]" = true := by
    unfold strStartsWith
    rw [hgdata]
    simp [listStartsWith]
  rw [if_pos hslice]
  have hdrop : strDrop (trimSpace ("[]" ++ X)) 2 =
      (⟨List.rdropWhile isGoSpace X.data⟩ : String) := by
    unfold strDrop
    rw [hgdata]
    rfl
  rw [hdrop, goTypeToTSType_trim_congr (trimSpace_rdrop X) fuel am tp sm tpm _]

end BranchLemmas


/-- C1: for every expression whose trimmed text is non-blank (with
generic-parameter substitution texts non-blank), and every alias table —
including self-referential and mutually-referential alias chains —
`GoTypeToTSType` terminates: some finite fuel (and every larger fuel)
returns, and the returned text is non-empty.  The visited set is returned
unchanged. -/
theorem c1_mapping_terminates_nonempty (e : String) (am : AliasMap)
    (tp : List String) (sm : StructMap) (tpm : TypeParamMapping) (v : Visited)
    (h1 : trimSpace e ≠ "") (h2 : ∀ kv ∈ tpm, kv.2 ≠ "") :
    ∃ fuel s, (∀ fuel', fuel ≤ fuel' →
      goTypeToTSType fuel' e am tp sm tpm v = some (s, v)) ∧ s ≠ "" := by
  obtain ⟨f, r, hr⟩ := goTypeToTSType_total e am tp sm tpm v
  obtain ⟨s, v'⟩ := r
  have hv : v' = v := goTypeToTSType_frame f e v s v' hr
  subst hv
  refine ⟨f, s, fun fuel' hle => goTypeToTSType_mono_le hle _ _ _ hr, ?_⟩
  cases f with
  | zero =>
    rw [goTypeToTSType] at hr
    exact Option.noConfusion hr
  | succ n =>
    rw [goTypeToTSType] at hr
    exact goTypeToTSTypeTrimmedF_ne hr h1 h2

/-- Witness for C1 at the concrete input `int` with empty tables. -/
theorem c1_witness :
    (trimSpace "int" ≠ "" ∧ ∀ kv ∈ ([] : TypeParamMapping), kv.2 ≠ "") ∧
    ∃ fuel s, (∀ fuel', fuel ≤ fuel' →
      goTypeToTSType fuel' "int" [] [] [] [] ∅ = some (s, ∅)) ∧ s ≠ "" :=
  ⟨⟨by decide, by simp⟩,
   c1_mapping_terminates_nonempty "int" [] [] [] [] ∅ (by decide) (by simp)⟩

/-- C2: a self-referential alias maps to `any`; the initiating call on a
mutual alias cycle maps to `any` and hands back an empty visited set, so a
fresh call afterward starts from exactly the state of the first call and
again yields `any` (no visited state leaks between independent calls). -/
theorem c2_cycle_isolation :
    goTypeToTSType 3 "SelfRef" [("SelfRef", "SelfRef")] [] [] [] ∅ =
      some ("any", ∅) ∧
    goTypeToTSType 5 "A" [("A", "B"), ("B", "A")] [] [] [] ∅ =
      some ("any", ∅) ∧
    ∀ r, goTypeToTSType 5 "A" [("A", "B"), ("B", "A")] [] [] [] ∅ = some r →
      goTypeToTSType 5 "A" [("A", "B"), ("B", "A")] [] [] [] r.2 =
        some ("any", ∅) := by
  refine ⟨rfl, rfl, ?_⟩
  intro r h
  have he : goTypeToTSType 5 "A" [("A", "B"), ("B", "A")] [] [] [] ∅ =
      some ("any", ∅) := rfl
  rw [he] at h
  have : ("any", (∅ : Visited)) = r := Option.some.inj h
  rw [← this]
  exact he

/-- Witness for C2's third component at the value actually returned. -/
theorem c2_witness :
    goTypeToTSType 5 "A" [("A", "B"), ("B", "A")] [] [] []
      (("any", (∅ : Visited)).2) = some ("any", ∅) :=
  c2_cycle_isolation.2.2 ("any", ∅) rfl

/-- C3 counterexample: the claim "mapping `*T` always yields
`map(T) ++ " | null"`" fails at `T = time.Time`: the literal special case
`*time.Time` fires before the pointer rule, yielding `string`, while the
claimed text would be `string | null`. -/
theorem c3_counterexample :
    (goTypeToTSType 4 "*time.Time" [] [] [] [] ∅).map Prod.fst = some "string" ∧
    (goTypeToTSType 4 "time.Time" [] [] [] [] ∅).map Prod.fst = some "string" ∧
    some ("string" ++ " | null") ≠ some "string" :=
  ⟨rfl, rfl, by decide⟩

/-- C3 amended: for every `T`, when `*T` (after trimming) is not one of the
two literal pointer special cases (`*time.Time`, `*url.URL`), not already
visited, not substituted and not an enclosing generic parameter, mapping
`*T` yields the mapping of `T` — run with `*T` marked visited — with
` | null` appended; nested pointers are covered since `T` may itself be a
pointer, so nothing collapses. -/
theorem c3_amended (T : String) (fuel : Nat) (am : AliasMap)
    (tp : List String) (sm : StructMap) (tpm : TypeParamMapping) (v : Visited)
    (h1 : trimSpace ("*" ++ T) ∉ v)
    (h2 : lookupStr tpm (trimSpace ("*" ++ T)) = none)
    (h3 : trimSpace ("*" ++ T) ∉ tp)
    (h4 : trimSpace ("*" ++ T) ≠ "*time.Time")
    (h5 : trimSpace ("*" ++ T) ≠ "*url.URL") :
    goTypeToTSType (fuel + 1) ("*" ++ T) am tp sm tpm v =
      (goTypeToTSType fuel T am tp sm tpm (insert (trimSpace ("*" ++ T)) v)).map
        (fun p => (p.1 ++ " | null", p.2.erase (trimSpace ("*" ++ T)))) :=
  pointer_branch T fuel v h1 h2 h3 h4 h5

/-- Witness for C3's amended statement at `T = *int` (a nested pointer), so
`**int` maps to `number | null | null`. -/
theorem c3_witness :
    goTypeToTSType 5 ("*" ++ "*int") [] [] [] [] ∅ =
      (goTypeToTSType 4 "*int" [] [] [] []
        (insert (trimSpace ("*" ++ "*int")) ∅)).map
        (fun p => (p.1 ++ " | null", p.2.erase (trimSpace ("*" ++ "*int")))) ∧
    (goTypeToTSType 5 "**int" [] [] [] [] ∅).map Prod.fst =
      some "number | null | null" :=
  ⟨c3_amended "*int" 4 [] [] [] [] ∅ (by decide) rfl (by simp) (by decide)
    (by decide), rfl⟩

/-- C4: map-key coercion.  (i) a `struct\x7b...\x7d` literal key always
yields the `string` key kind; (ii) an integer-family key name yields
`number`; (iii) any other key is resolved through the alias table to a
fixed point (`resolveKeyChain`, guarded by its own local visited-keys set,
independent of the outer guard) and then mapped, with any result other than
`string`, `number` or `symbol` forced to `string`; (iv) a map expression
with no closing `]` maps to `any`; (v)–(vi) concretely,
`map[struct\x7bX int\x7d]string` and `map[K]string` with the alias chain
`K -> bool` both yield a string-keyed index signature, and (vii) `map[int`
maps to `any`. -/
theorem c4_map_key_coercion :
    (∀ fuel rk am tp sm tpm v, strStartsWith rk "struct\x7b" = true →
      mapKeyTS fuel rk am tp sm tpm v = some ("string", v)) ∧
    (∀ fuel rk am tp sm tpm v, rk ∈ intKeyNames →
      mapKeyTS fuel rk am tp sm tpm v = some ("number", v)) ∧
    (∀ fuel rk am tp sm tpm v, ¬ strStartsWith rk "struct\x7b" = true →
      rk ∉ intKeyNames →
      mapKeyTS fuel rk am tp sm tpm v =
        (goTypeToTSType fuel (resolveKeyChain am rk) am tp sm tpm v).map
          (fun p =>
            ((if p.1 ≠ "string" ∧ p.1 ≠ "number" ∧ p.1 ≠ "symbol" then "string"
              else p.1), p.2))) ∧
    (∀ fuel g am tp sm tpm v, splitOnFirstChar ']' (g.data.drop 4) = none →
      parseMapType fuel g am tp sm tpm v = some ("any", v)) ∧
    (goTypeToTSType 6 "map[struct\x7bX int\x7d]string" [] [] [] [] ∅).map
      Prod.fst = some "\x7b [key: string]: string \x7d" ∧
    (goTypeToTSType 6 "map[K]string" [("K", "bool")] [] [] [] ∅).map Prod.fst =
      some "\x7b [key: string]: string \x7d" ∧
    (goTypeToTSType 3 "map[int" [] [] [] [] ∅).map Prod.fst = some "any" := by
  refine ⟨?_, ?_, ?_, ?_, rfl, rfl, rfl⟩
  · intro fuel rk am tp sm tpm v h
    unfold mapKeyTS mapKeyTSF
    rw [if_pos h]
  · intro fuel rk am tp sm tpm v h
    unfold mapKeyTS mapKeyTSF
    have hf : ∀ x ∈ intKeyNames, strStartsWith x "struct\x7b" = false := by decide
    rw [if_neg (by simp [hf rk h]), if_pos h]
  · intro fuel rk am tp sm tpm v h1 h2
    unfold mapKeyTS mapKeyTSF
    rw [if_neg h1, if_neg h2]
  · intro fuel g am tp sm tpm v h
    unfold parseMapType parseMapTypeF
    rw [h]
    rfl

/-- Witness for C4's hypothesised components at concrete keys: a struct
literal key, the key `uint32`, the key `K` with alias chain `K -> bool`,
and a map expression missing `]`. -/
theorem c4_witness :
    mapKeyTS 3 "struct\x7bX int\x7d" [] [] [] [] ∅ = some ("string", ∅) ∧
    mapKeyTS 3 "uint32" [] [] [] [] ∅ = some ("number", ∅) ∧
    mapKeyTS 3 "K" [("K", "bool")] [] [] [] ∅ =
      (goTypeToTSType 3 (resolveKeyChain [("K", "bool")] "K")
          [("K", "bool")] [] [] [] ∅).map
        (fun p =>
          ((if p.1 ≠ "string" ∧ p.1 ≠ "number" ∧ p.1 ≠ "symbol" then "string"
            else p.1), p.2)) ∧
    parseMapType 3 "map[int" [] [] [] [] ∅ = some ("any", ∅) :=
  ⟨c4_map_key_coercion.1 3 "struct\x7bX int\x7d" [] [] [] [] ∅ (by decide),
   c4_map_key_coercion.2.1 3 "uint32" [] [] [] [] ∅ (by decide),
   c4_map_key_coercion.2.2.1 3 "K" [("K", "bool")] [] [] [] ∅ (by decide)
     (by decide),
   c4_map_key_coercion.2.2.2.1 3 "map[int" [] [] [] [] ∅ (by decide)⟩

/-- C5: `SplitGenericType` splits `Base[A,B]` into `Base` and `[A, B]`,
splitting only on depth-0 commas and trimming each part with empty trimmed
parts dropped (`X[ a , , b ]` gives `a`, `b`; `M[Pair[A,B],C]` keeps the
nested parameter whole); `Base[]` gives exactly one empty parameter; and an
input with no `[`, or whose last `]` is not after the first `[`, is
returned unchanged with no parameters. -/
theorem c5_split_generic_type :
    SplitGenericType "Base[A,B]" = ("Base", ["A", "B"]) ∧
    SplitGenericType "Base[]" = ("Base", [""]) ∧
    SplitGenericType "Broken[Param" = ("Broken[Param", []) ∧
    SplitGenericType "X[ a , , b ]" = ("X", ["a", "b"]) ∧
    SplitGenericType "M[Pair[A,B],C]" = ("M", ["Pair[A,B]", "C"]) ∧
    (∀ s : String, firstIdxOf '[' s.data = none →
      SplitGenericType s = (s, [])) ∧
    (∀ (s : String) (lidx ridx : Nat), firstIdxOf '[' s.data = some lidx →
      lastIdxOf ']' s.data = some ridx → ridx ≤ lidx →
      SplitGenericType s = (s, [])) := by
  refine ⟨rfl, rfl, rfl, rfl, rfl, ?_, ?_⟩
  · intro s h
    unfold SplitGenericType
    rw [h]
  · intro s lidx ridx hf hl hle
    unfold SplitGenericType
    rw [hf, hl]
    simp only [hle, if_pos]

/-- Witness for C5's hypothesised components: an input with no bracket at
all, and an input whose only `]` precedes its only `[`. -/
theorem c5_witness :
    SplitGenericType "NoBrackets" = ("NoBrackets", []) ∧
    SplitGenericType "ab]cd[ef" = ("ab]cd[ef", []) :=
  ⟨c5_split_generic_type.2.2.2.2.2.1 "NoBrackets" (by decide),
   c5_split_generic_type.2.2.2.2.2.2 "ab]cd[ef" 5 2 (by decide) (by decide)
     (by decide)⟩

/-- C6: mapping a generic instantiation `Base[P1, ..., Pn]`:
`mapGenericParams` recursively maps every parameter in order (its step
equation is the first component); when the alias table has no entry for the
base, the result is `Base<P1, ..., Pn>` over the mapped parameters; when the
alias table maps the base to a value different from the base itself, the
base is replaced by its recursively mapped alias expansion before the
angle-bracket form is emitted; concretely, `Result[User]` with an empty
alias table maps to `Result<User>`. -/
theorem c6_generic_instantiation :
    (∀ fuel p ps am tp sm tpm v,
      mapGenericParams fuel (p :: ps) am tp sm tpm v =
        (goTypeToTSType fuel p am tp sm tpm v).bind
          (fun a => (mapGenericParams fuel ps am tp sm tpm a.2).map
            (fun b => (a.1 :: b.1, b.2)))) ∧
    (∀ fuel g am tp sm tpm v,
      lookupStr am (SplitGenericType g).1 = none →
      CheckGenericPatterns fuel g am tp sm tpm v =
        (mapGenericParams fuel (SplitGenericType g).2 am tp sm tpm v).map
          (fun pr =>
            ((SplitGenericType g).1 ++ "<" ++ joinSep ", " pr.1 ++ ">",
             pr.2))) ∧
    (∀ fuel g am tp sm tpm v baseAlias,
      lookupStr am (SplitGenericType g).1 = some baseAlias →
      baseAlias ≠ (SplitGenericType g).1 →
      CheckGenericPatterns fuel g am tp sm tpm v =
        (mapGenericParams fuel (SplitGenericType g).2 am tp sm tpm v).bind
          (fun pr =>
            (goTypeToTSType fuel baseAlias am tp sm tpm pr.2).map
              (fun b => (b.1 ++ "<" ++ joinSep ", " pr.1 ++ ">", b.2)))) ∧
    (goTypeToTSType 10 "Result[User]" [] [] [("User", ⟨"User", [], []⟩)] []
        ∅).map Prod.fst = some "Result<User>" := by
  refine ⟨fun fuel p ps am tp sm tpm v => rfl, ?_, ?_, rfl⟩
  · intro fuel g am tp sm tpm v h
    unfold CheckGenericPatterns CheckGenericPatternsF mapGenericParams
    rw [h]
    simp only [Option.elim]
    cases hm : mapGenericParamsF (goTypeToTSType fuel) (SplitGenericType g).2
        am tp sm tpm v with
    | none => rfl
    | some pr => rfl
  · intro fuel g am tp sm tpm v baseAlias h hne
    unfold CheckGenericPatterns CheckGenericPatternsF
    rw [h]
    simp only [Option.elim]
    simp only [if_pos hne]

/-- Witness for C6's hypothesised components: the generic `Result[User]`
whose base has no alias entry, and `Res[int]` whose base is aliased to
`Wrapped`. -/
theorem c6_witness :
    CheckGenericPatterns 2 "Result[User]" [] [] [] [] ∅ =
      (mapGenericParams 2 (SplitGenericType "Result[User]").2 [] [] [] []
          ∅).map
        (fun pr =>
          ((SplitGenericType "Result[User]").1 ++ "<" ++
             joinSep ", " pr.1 ++ ">", pr.2)) ∧
    CheckGenericPatterns 2 "Res[int]" [("Res", "Wrapped")] [] [] [] ∅ =
      (mapGenericParams 2 (SplitGenericType "Res[int]").2 [("Res", "Wrapped")]
          [] [] [] ∅).bind
        (fun pr =>
          (goTypeToTSType 2 "Wrapped" [("Res", "Wrapped")] [] [] [] pr.2).map
            (fun b => (b.1 ++ "<" ++ joinSep ", " pr.1 ++ ">", b.2))) :=
  ⟨c6_generic_instantiation.2.1 2 "Result[User]" [] [] [] [] ∅ (by decide),
   c6_generic_instantiation.2.2.1 2 "Res[int]" [("Res", "Wrapped")] [] [] []
     ∅ "Wrapped" (by decide) (by decide)⟩

/-- C7: mapping a slice expression `[]X` (trimmed form not visited, not
substituted, not an enclosing generic parameter, and not the literal
special case `[]byte`) recursively maps `X` and appends `[]`, wrapping the
mapped element in parentheses exactly when it begins with the
index-signature marker and is not already parenthesized; concretely,
`[]map[string]int` maps to `(\x7b [key: string]: number \x7d)[]`. -/
theorem c7_slice_parenthesize :
    (∀ (X : String) (fuel : Nat) (am : AliasMap) (tp : List String)
        (sm : StructMap) (tpm : TypeParamMapping) (v : Visited),
      trimSpace ("[]" ++ X) ∉ v →
      lookupStr tpm (trimSpace ("[]" ++ X)) = none →
      trimSpace ("[]" ++ X) ∉ tp →
      trimSpace ("[]" ++ X) ≠ "[]byte" →
      goTypeToTSType (fuel + 1) ("[]" ++ X) am tp sm tpm v =
        (goTypeToTSType fuel X am tp sm tpm
            (insert (trimSpace ("[]" ++ X)) v)).map
          (fun p =>
            ((if strStartsWith p.1 "\x7b [key:" ∧ ¬ strStartsWith p.1 "(" then
                "(" ++ p.1 ++ ")"
              else p.1) ++ "[]", p.2.erase (trimSpace ("[]" ++ X))))) ∧
    (goTypeToTSType 10 "[]map[string]int" [] [] [] [] ∅).map Prod.fst =
      some "(\x7b [key: string]: number \x7d)[]" :=
  ⟨fun X fuel am tp sm tpm v h1 h2 h3 h4 => slice_branch X fuel v h1 h2 h3 h4,
   rfl⟩

/-- Witness for C7's general component at the element type `bool`, so
`[]bool` maps through a recursive call on `bool` with `[]bool` marked
visited. -/
theorem c7_witness :
    goTypeToTSType (3 + 1) ("[]" ++ "bool") [] [] [] [] ∅ =
      (goTypeToTSType 3 "bool" [] [] [] []
          (insert (trimSpace ("[]" ++ "bool")) ∅)).map
        (fun p =>
          ((if strStartsWith p.1 "\x7b [key:" ∧ ¬ strStartsWith p.1 "(" then
              "(" ++ p.1 ++ ")"
            else p.1) ++ "[]", p.2.erase (trimSpace ("[]" ++ "bool")))) :=
  c7_slice_parenthesize.1 "bool" 3 [] [] [] [] ∅ (by decide) rfl (by simp)
    (by decide)

/-- C8: the visited set is a frame of every call: whatever `GoTypeToTSType`
returns, the returned visited set equals the one passed in (the trimmed
expression is inserted on entry and erased on every return branch); and if
the trimmed expression is already in the visited set, the call returns
`any` with the visited set untouched. -/
theorem c8_visited_frame :
    ∀ (fuel : Nat) (e : String) (am : AliasMap) (tp : List String)
      (sm : StructMap) (tpm : TypeParamMapping) (v : Visited),
    (∀ s v', goTypeToTSType fuel e am tp sm tpm v = some (s, v') → v' = v) ∧
    (trimSpace e ∈ v →
      goTypeToTSType (fuel + 1) e am tp sm tpm v = some ("any", v)) := by
  intro fuel e am tp sm tpm v
  constructor
  · intro s v' h
    exact goTypeToTSType_frame fuel e v s v' h
  · intro hmem
    rw [goTypeToTSType]
    unfold goTypeToTSTypeTrimmedF
    rw [if_pos hmem]

/-- Witness for C8: the frame component at `int` with visited `\x7bz\x7d`,
and the cycle-guard component at `loop` with `loop` already visited. -/
theorem c8_witness :
    ({"z"} : Visited) = {"z"} ∧
    goTypeToTSType (0 + 1) "loop" [] [] [] [] {"loop"} =
      some ("any", {"loop"}) :=
  ⟨(c8_visited_frame 3 "int" [] [] [] [] {"z"}).1 "number" {"z"} (by decide),
   (c8_visited_frame 0 "loop" [] [] [] [] {"loop"}).2 (by decide)⟩

/-- C9 counterexample: `Convert` does not surface a parse error
"unmodified" — it wraps it with `fmt.Errorf("failed to parse Go files in
%q: %w", ...)`, so the surfaced message differs from the collaborator's
message. -/
theorem c9_counterexample :
    Convert "in" "out.ts" (fun _ => Except.error "boom")
        (fun _ _ => Except.ok ()) =
      Except.error
        ("failed to parse Go files in " ++ goQuote "in" ++ ": " ++ "boom") ∧
    "failed to parse Go files in " ++ goQuote "in" ++ ": " ++ "boom" ≠
      "boom" :=
  ⟨rfl, by decide⟩

/-- C9 amended: `Convert` fails in exactly two ways.  A parse error `e` is
surfaced exactly once, wrapped with the fixed context `failed to parse Go
files in <quoted dir>: `, and aborts the run before generation — the result
does not depend on the generator at all; a generation error `e` (reached
only after a successful parse) is surfaced exactly once, wrapped with
`failed to generate TypeScript file <quoted path>: `; when both collaborators
succeed, `Convert` succeeds. -/
theorem c9_amended_convert_errors :
    (∀ (inputDir outputFile : String)
        (p : String → Except String GoFileData)
        (g : GoFileData → String → Except String Unit) (e : String),
      p inputDir = Except.error e →
      Convert inputDir outputFile p g =
        Except.error
          ("failed to parse Go files in " ++ goQuote inputDir ++ ": " ++ e)) ∧
    (∀ (inputDir outputFile : String)
        (p : String → Except String GoFileData)
        (g g' : GoFileData → String → Except String Unit) (e : String),
      p inputDir = Except.error e →
      Convert inputDir outputFile p g = Convert inputDir outputFile p g') ∧
    (∀ (inputDir outputFile : String)
        (p : String → Except String GoFileData)
        (g : GoFileData → String → Except String Unit) (d : GoFileData)
        (e : String),
      p inputDir = Except.ok d → g d outputFile = Except.error e →
      Convert inputDir outputFile p g =
        Except.error
          ("failed to generate TypeScript file " ++ goQuote outputFile ++
             ": " ++ e)) ∧
    (∀ (inputDir outputFile : String)
        (p : String → Except String GoFileData)
        (g : GoFileData → String → Except String Unit) (d : GoFileData),
      p inputDir = Except.ok d → g d outputFile = Except.ok () →
      Convert inputDir outputFile p g = Except.ok ()) := by
  refine ⟨?_, ?_, ?_, ?_⟩
  · intro inputDir outputFile p g e hp
    unfold Convert
    rw [hp]
  · intro inputDir outputFile p g g' e hp
    unfold Convert
    rw [hp]
  · intro inputDir outputFile p g d e hp hg
    unfold Convert
    rw [hp]
    show (match g d outputFile with
      | Except.error e =>
        Except.error
          ("failed to generate TypeScript file " ++ goQuote outputFile ++
             ": " ++ e)
      | Except.ok _ => Except.ok ()) = _
    rw [hg]
  · intro inputDir outputFile p g d hp hg
    unfold Convert
    rw [hp]
    show (match g d outputFile with
      | Except.error e =>
        Except.error
          ("failed to generate TypeScript file " ++ goQuote outputFile ++
             ": " ++ e)
      | Except.ok _ => Except.ok ()) = _
    rw [hg]

/-- Witness for C9's amended statement at concrete collaborators: a failing
parser (with two different generators), a failing generator after a
successful parse, and the all-success run. -/
theorem c9_witness :
    Convert "i" "o" (fun _ => Except.error "x") (fun _ _ => Except.ok ()) =
      Except.error
        ("failed to parse Go files in " ++ goQuote "i" ++ ": " ++ "x") ∧
    Convert "i" "o" (fun _ => Except.error "x") (fun _ _ => Except.ok ()) =
      Convert "i" "o" (fun _ => Except.error "x")
        (fun _ _ => Except.error "z") ∧
    Convert "i" "o" (fun _ => Except.ok ⟨[], []⟩)
        (fun _ _ => Except.error "y") =
      Except.error
        ("failed to generate TypeScript file " ++ goQuote "o" ++ ": " ++
           "y") ∧
    Convert "i" "o" (fun _ => Except.ok ⟨[], []⟩) (fun _ _ => Except.ok ()) =
      Except.ok () :=
  ⟨c9_amended_convert_errors.1 "i" "o" (fun _ => Except.error "x")
     (fun _ _ => Except.ok ()) "x" rfl,
   c9_amended_convert_errors.2.1 "i" "o" (fun _ => Except.error "x")
     (fun _ _ => Except.ok ()) (fun _ _ => Except.error "z") "x" rfl,
   c9_amended_convert_errors.2.2.1 "i" "o" (fun _ => Except.ok ⟨[], []⟩)
     (fun _ _ => Except.error "y") ⟨[], []⟩ "y" rfl rfl,
   c9_amended_convert_errors.2.2.2 "i" "o" (fun _ => Except.ok ⟨[], []⟩)
     (fun _ _ => Except.ok ()) ⟨[], []⟩ rfl rfl⟩

/-- C10: `GoTypeToTSType` maps both `*interface\x7b\x7d` and
`*interface \x7b\x7d` to `any | null`, not `any`; the fixed basic-type
table does contain entries sending both spellings to `any`, but the
pointer branch precedes the basic-type lookup, so on any pointer input
(not visited, not substituted, not an enclosing generic parameter, and not
one of the two literal pointer special cases) the pointer rule fires and
the table entries are unreachable. -/
theorem c10_pointer_before_basic_table :
    (goTypeToTSType 3 "*interface\x7b\x7d" [] [] [] [] ∅).map Prod.fst =
      some "any | null" ∧
    (goTypeToTSType 3 "*interface \x7b\x7d" [] [] [] [] ∅).map Prod.fst =
      some "any | null" ∧
    some "any | null" ≠ some "any" ∧
    checkBasicTypes "*interface\x7b\x7d" = "any" ∧
    checkBasicTypes "*interface \x7b\x7d" = "any" ∧
    (∀ (fuel : Nat) (am : AliasMap) (tp : List String) (sm : StructMap)
        (tpm : TypeParamMapping) (v : Visited),
      trimSpace "*interface\x7b\x7d" ∉ v →
      lookupStr tpm (trimSpace "*interface\x7b\x7d") = none →
      trimSpace "*interface\x7b\x7d" ∉ tp →
      goTypeToTSType (fuel + 1) "*interface\x7b\x7d" am tp sm tpm v =
        (goTypeToTSType fuel "interface\x7b\x7d" am tp sm tpm
            (insert (trimSpace "*interface\x7b\x7d") v)).map
          (fun p =>
            (p.1 ++ " | null",
             p.2.erase (trimSpace "*interface\x7b\x7d")))) :=
  ⟨rfl, rfl, by decide, rfl, rfl,
   fun fuel am tp sm tpm v h1 h2 h3 =>
     pointer_branch "interface\x7b\x7d" fuel v h1 h2 h3 (by decide)
       (by decide)⟩

/-- Witness for C10's general component at fuel 3 with empty tables. -/
theorem c10_witness :
    goTypeToTSType (3 + 1) "*interface\x7b\x7d" [] [] [] [] ∅ =
      (goTypeToTSType 3 "interface\x7b\x7d" [] [] [] []
          (insert (trimSpace "*interface\x7b\x7d") ∅)).map
        (fun p =>
          (p.1 ++ " | null", p.2.erase (trimSpace "*interface\x7b\x7d"))) :=
  c10_pointer_before_basic_table.2.2.2.2.2 3 [] [] [] [] ∅ (by decide) rfl
    (by simp)
